import Mathlib

/-!
Verification development for the Klondike Solitaire solver core
(`src/core/game_state.py`, `src/core/solution.py`, `src/core/solver.py`,
card helpers from `src/memory/reader.py`).

Modelling conventions:
* Python `list` is `List`; `l[-1]`/`l.pop()` are `getLast?`/`dropLast`;
  `l[i:]`/`del l[i:]` are `drop`/`take`; `l[::-1]` is `reverse`.
* Python indexing `l[i]` (which accepts negative indices and raises
  `IndexError` out of range) is `pyGet`/`pySet` below; a raised exception is
  modelled as `none` of the surrounding `Option`.
* Python `str` is `List Char`; `int(s)` is `pyInt?` (optional sign followed
  by ASCII digits, `none` = `ValueError`; whitespace/underscore forms that the
  program never constructs are not modelled).
* Machine integers are `Int`/`Nat` (Python ints are unbounded, no overflow).
-/

/-- Source `card_rank` from `src/memory/reader.py`: `card_id >> 2` (0=Ace … 12=King). -/
def card_rank (card_id : Nat) : Nat := card_id >>> 2

/-- Source `card_suit` from `src/memory/reader.py`: `card_id & 3`
(0=Clubs, 1=Diamonds, 2=Hearts, 3=Spades). -/
def card_suit (card_id : Nat) : Nat := card_id &&& 3

/-- Normalize a Python list index: nonnegative indices address from the front,
negative ones from the back; out-of-range gives `none` (`IndexError`). -/
def pyIdx (len : Nat) (i : Int) : Option Nat :=
  if 0 ≤ i then
    if i < (len : Int) then some i.toNat else none
  else
    if -i ≤ (len : Int) then some (len - (-i).toNat) else none

/-- Python `l[i]` with exception as `none`. -/
def pyGet (l : List α) (i : Int) : Option α :=
  (pyIdx l.length i).bind fun j => l.get? j

/-- Python `l[i] = v` with exception as `none`. -/
def pySet (l : List α) (i : Int) (v : α) : Option (List α) :=
  (pyIdx l.length i).map fun j => l.set j v

/-- Value of an ASCII digit character, `none` for non-digits. -/
def digitVal (ch : Char) : Option Nat :=
  if 48 ≤ ch.toNat ∧ ch.toNat ≤ 57 then some (ch.toNat - 48) else none

/-- Parse a nonempty all-digit string to a natural number. -/
def parseDigits (l : List Char) : Option Nat :=
  if l = [] then none
  else l.foldlM (fun acc ch => (digitVal ch).map fun d => acc * 10 + d) 0

/-- Python `int(s)`: optional sign then decimal digits; `none` = `ValueError`. -/
def pyInt (l : List Char) : Option Int :=
  match l with
  | [] => none
  | c :: rest =>
    if c = '-' then (parseDigits rest).map fun m => -(m : Int)
    else if c = '+' then (parseDigits rest).map fun m => (m : Int)
    else (parseDigits (c :: rest)).map fun m => (m : Int)

/-- Little-endian decimal digits of `n`, structurally recursive on a fuel
bound (sufficient whenever `n ≤ fuel`) so that it evaluates in the kernel. -/
def digitsRev : Nat → Nat → List Nat
  | 0, _ => []
  | fuel + 1, n => if n = 0 then [] else n % 10 :: digitsRev fuel (n / 10)

/-- Python `str(n)` for a natural number (decimal digits, most significant
first). -/
def natToChars (n : Nat) : List Char :=
  if n = 0 then ['0']
  else (digitsRev n n).reverse.map fun d => Char.ofNat (48 + d)

/-- A Python string: a move token. -/
abbrev Str := List Char

/-- A move in reader-compatible format: a list of string tokens
(`["TALON", "F1"]`, `["T3", "2", "T7"]`, `["DECK"]`, …). -/
abbrev Move := List Str

/-- Token `"TALON"`. -/
def tokTALON : Str := "TALON".toList

/-- Token `"DECK"`. -/
def tokDECK : Str := "DECK".toList

/-- Token `f"F{n}"`. -/
def tokF (n : Nat) : Str := 'F' :: natToChars n

/-- Token `f"T{n}"`. -/
def tokT (n : Nat) : Str := 'T' :: natToChars n

/-- Source `GameState` from `src/core/game_state.py`. `foundation_count` is a cached
derived field in the source (recomputed after every transition), modelled here
as the derived function `foundation_count`. -/
structure GameState where
  stock : List Nat
  waste : List Nat
  foundations : List Int
  tableaus : List (List (Nat × Bool))
  stock_cycles : Nat
deriving DecidableEq, Repr

/-- Source `foundation_count`: `sum(rank + 1 for rank in foundations if rank >= 0)`. -/
def foundation_count (s : GameState) : Int :=
  ((s.foundations.filter fun rank => 0 ≤ rank).map fun rank => rank + 1).sum

/-- Source `GameState.is_won`: `all(rank == 12 for rank in self.foundations)`. -/
def is_won (s : GameState) : Bool :=
  s.foundations.all fun rank => rank == 12

/-- Source `GameState.can_move_to_foundation`: the card is one rank higher than the
current top of its suit's foundation (`rank == foundations[suit] + 1`).
`foundations[suit]` is modelled with a default of `-2`, unreachable when the
foundations list has its four slots (suits are `0..3`). -/
def can_move_to_foundation (s : GameState) (card_id : Nat) : Bool :=
  (card_rank card_id : Int) == s.foundations.getD (card_suit card_id) (-2) + 1

/-- Source `GameState.can_move_to_tableau`: King to an empty tableau, else one rank
lower and opposite color w.r.t. a face-up top card. -/
def can_move_to_tableau (card_id : Nat) (tableau : List (Nat × Bool)) : Bool :=
  let rank := card_rank card_id
  let suit := card_suit card_id
  match tableau.getLast? with
  | none => rank == 12
  | some (top_card, is_face_up) =>
    if !is_face_up then false
    else
      let is_black := suit == 0 || suit == 3
      let top_is_black := card_suit top_card == 0 || card_suit top_card == 3
      (is_black != top_is_black) && ((rank : Int) == (card_rank top_card : Int) - 1)

/-- Source `GameState.can_move_sequence`: nonempty, and its first (bottom-most moved)
card may be placed on the destination. -/
def can_move_sequence (moving_sequence : List (Nat × Bool))
    (tableau : List (Nat × Bool)) : Bool :=
  match moving_sequence with
  | [] => false
  | (moving_card, _) :: _ => can_move_to_tableau moving_card tableau

/-- Source `GameState.available_moves`, in the source's enumeration order:
waste moves, tableau→foundation, tableau→tableau sequences, deck. -/
def available_moves (s : GameState) : List Move :=
  (match s.waste.getLast? with
   | none => []
   | some top_card =>
     (if can_move_to_foundation s top_card then
        [[tokTALON, tokF (card_suit top_card + 1)]] else [])
     ++ s.tableaus.enum.filterMap fun it =>
          if can_move_to_tableau top_card it.2 then
            some [tokTALON, tokT (it.1 + 1)] else none)
  ++ (s.tableaus.enum.filterMap fun it =>
        match it.2.getLast? with
        | some (top_card, true) =>
          if can_move_to_foundation s top_card then
            some [tokT (it.1 + 1), tokF (card_suit top_card + 1)] else none
        | _ => none)
  ++ (s.tableaus.enum.flatMap fun st =>
        let face_up_start := st.2.findIdx fun x => x.2
        (List.range' face_up_start (st.2.length - face_up_start)).flatMap
          fun seq_start =>
            let moving_sequence := st.2.drop seq_start
            s.tableaus.enum.filterMap fun dt =>
              if st.1 ≠ dt.1 ∧ can_move_sequence moving_sequence dt.2 then
                some [tokT (st.1 + 1), natToChars (st.2.length - seq_start - 1),
                      tokT (dt.1 + 1)]
              else none)
  ++ (if s.stock ≠ [] then [[tokDECK]]
      else if s.waste ≠ [] then [[tokDECK]] else [])

/-- Flip the pile's top card face-up if it exists and is face-down
(the "flip next card if needed" step of `apply_move`). -/
def flipLastIfDown (t : List (Nat × Bool)) : List (Nat × Bool) :=
  match t.getLast? with
  | some (top_card, false) => t.dropLast ++ [(top_card, true)]
  | _ => t

/-- Source `apply_move`, `"TALON"` two-token branch (waste to foundation or tableau). -/
def applyTalon2 (s : GameState) (destination : Str) : Option GameState :=
  if ['F'].isPrefixOf destination then
    match s.waste.getLast? with
    | none => some s
    | some card => do
      let suit := card_suit card
      let v ← pyGet s.foundations (suit : Int)
      let f ← pySet s.foundations (suit : Int) (v + 1)
      pure { s with waste := s.waste.dropLast, foundations := f }
  else if ['T'].isPrefixOf destination then
    match s.waste.getLast? with
    | none => some s
    | some card => do
      let tableau_idx ← (pyInt (destination.drop 1)).map fun n => n - 1
      let t ← pyGet s.tableaus tableau_idx
      let ts ← pySet s.tableaus tableau_idx (t ++ [(card, true)])
      pure { s with waste := s.waste.dropLast, tableaus := ts }
  else some s

/-- Source `apply_move`, two-token tableau branch (tableau to foundation). -/
def applyTab2 (s : GameState) (action destination : Str) : Option GameState :=
  if ¬ ['F'].isPrefixOf destination then some s
  else do
    let tableau_idx ← (pyInt (action.drop 1)).map fun n => n - 1
    let t ← pyGet s.tableaus tableau_idx
    match t.getLast? with
    | none => some s
    | some (card, _) => do
      let suit := card_suit card
      let v ← pyGet s.foundations (suit : Int)
      let f ← pySet s.foundations (suit : Int) (v + 1)
      let ts ← pySet s.tableaus tableau_idx (flipLastIfDown t.dropLast)
      pure { s with foundations := f, tableaus := ts }

/-- Source `apply_move`, three-token tableau branch (tableau sequence to tableau). -/
def applyTab3 (s : GameState) (action count dest : Str) : Option GameState := do
  let from_idx ← (pyInt (action.drop 1)).map fun n => n - 1
  let cards_from_top ← pyInt count
  let to_idx ← (pyInt (dest.drop 1)).map fun n => n - 1
  if ¬ (0 ≤ from_idx ∧ from_idx < 7) ∨ ¬ (0 ≤ to_idx ∧ to_idx < 7)
      ∨ from_idx = to_idx then
    some s
  else do
    let src_tableau ← pyGet s.tableaus from_idx
    if src_tableau = [] then some s
    else do
      let start_idx := (max 0 ((src_tableau.length : Int) - cards_from_top - 1)).toNat
      let sequence := src_tableau.drop start_idx
      let dst_tableau ← pyGet s.tableaus to_idx
      let ts1 ← pySet s.tableaus from_idx (flipLastIfDown (src_tableau.take start_idx))
      let ts2 ← pySet ts1 to_idx (dst_tableau ++ sequence)
      pure { s with tableaus := ts2 }

/-- Source `apply_move`, `"DECK"` branch (draw one, or recycle waste into stock). -/
def applyDeck (s : GameState) : GameState :=
  match s.stock.getLast? with
  | some card =>
    { s with stock := s.stock.dropLast, waste := s.waste ++ [card] }
  | none =>
    if s.waste ≠ [] then
      { s with stock := s.waste.reverse, waste := [],
               stock_cycles := s.stock_cycles + 1 }
    else s

/-- Source `GameState.apply_move`: pure transition; a raised Python exception
(empty move, failed `int()` parse, `IndexError`) is `none`. The source's
`if/elif` chain on `(action, len(move))` is dispatched here per arity;
note that `"TALON"` itself satisfies `action.startswith("T")`, so a
three-token `"TALON"` move reaches the tableau-sequence branch, and the
`"DECK"` branch is reachable at any arity. -/
def apply_move (s : GameState) (move : Move) : Option GameState :=
  match move with
  | [] => none
  | [action] =>
    if action = tokDECK then some (applyDeck s) else some s
  | [action, destination] =>
    if action = tokTALON then applyTalon2 s destination
    else if ['T'].isPrefixOf action then applyTab2 s action destination
    else if action = tokDECK then some (applyDeck s)
    else some s
  | [action, count, dest] =>
    if ['T'].isPrefixOf action then applyTab3 s action count dest
    else if action = tokDECK then some (applyDeck s)
    else some s
  | action :: _ =>
    if action = tokDECK then some (applyDeck s) else some s

/-- Source `GameState.heuristic_score`: the weighted linear evaluation. -/
def heuristic_score (s : GameState) : Int :=
  ((s.foundations.filter fun rank => 0 ≤ rank).map fun rank => (rank + 1) * 10000).sum
  + (s.tableaus.map fun tableau => 200 * ((tableau.filter fun x => x.2).length : Int)).sum
  - (s.tableaus.map fun tableau => 1000 * ((tableau.filter fun x => !x.2).length : Int)).sum
  - (s.stock_cycles : Int) * 30000
  - (s.waste.length : Int) * 800
  - (s.stock.length : Int) * 200

/-- Source `SolutionState` from `src/core/solution.py` (`foundation_count`, `moves`;
the default constructor yields `(0, [])`). -/
structure SolutionState where
  foundation_count : Int
  moves : List Move
deriving DecidableEq, Repr

/-- Source `get_move_priority` from `src/core/solution.py`. The source's `if/elif`
chain is dispatched per arity; `"TALON"` also satisfies
`action.startswith("T")`, relevant for arities other than ≥ 2. -/
def get_move_priority (move : Move) : Int :=
  match move with
  | [] => 0
  | [action] =>
    if action = tokTALON then 0
    else if ['T'].isPrefixOf action then 0
    else if action = tokDECK then 1000 else 0
  | [action, b] =>
    if action = tokTALON then
      if ['F'].isPrefixOf b then 1000000
      else if ['T'].isPrefixOf b then 400000 else 0
    else if ['T'].isPrefixOf action then
      if ['F'].isPrefixOf b then 950000 else 0
    else if action = tokDECK then 1000 else 0
  | [action, b, c] =>
    if action = tokTALON then
      if ['F'].isPrefixOf b then 1000000
      else if ['T'].isPrefixOf b then 400000 else 0
    else if ['T'].isPrefixOf action then
      if ['T'].isPrefixOf c then 500000 else 0
    else if action = tokDECK then 1000 else 0
  | action :: b :: _ :: _ :: _ =>
    if action = tokTALON then
      if ['F'].isPrefixOf b then 1000000
      else if ['T'].isPrefixOf b then 400000 else 0
    else if ['T'].isPrefixOf action then 0
    else if action = tokDECK then 1000 else 0

/-- Python comparison of two strings (codepoint lexicographic). -/
def cmpStr : Str → Str → Ordering
  | [], [] => .eq
  | [], _ :: _ => .lt
  | _ :: _, [] => .gt
  | a :: as_, b :: bs =>
    match compare a.toNat b.toNat with
    | .eq => cmpStr as_ bs
    | o => o

/-- Python comparison of two moves (lists of strings, lexicographic). -/
def cmpMove : Move → Move → Ordering
  | [], [] => .eq
  | [], _ :: _ => .lt
  | _ :: _, [] => .gt
  | a :: as_, b :: bs =>
    match cmpStr a b with
    | .eq => cmpMove as_ bs
    | o => o

/-- Python comparison of `(priority, move)` pairs. -/
def cmpPr (a b : Int × Move) : Ordering :=
  match compare a.1 b.1 with
  | .eq => cmpMove a.2 b.2
  | o => o

/-- Stable descending insertion: place `a` before the first strictly smaller
element (equal keys keep original order, matching
`list.sort(reverse=True)`). -/
def insertDesc (a : Int × Move) : List (Int × Move) → List (Int × Move)
  | [] => [a]
  | b :: bs => if cmpPr a b = .gt then a :: b :: bs else b :: insertDesc a bs

/-- Stable descending sort (Python `sort(reverse=True)` on `(priority, move)`
tuples: both sorts are stable and descending by the same total key, hence
produce the same list). -/
def pySortDesc (l : List (Int × Move)) : List (Int × Move) :=
  l.foldl (fun acc a => insertDesc a acc) []

/-- Source `prioritize_moves` from `src/core/solution.py`. -/
def prioritize_moves (moves : List Move) : List Move :=
  (pySortDesc (moves.map fun move => (get_move_priority move, move))).map fun x => x.2

/-- The canonical visited-set key built in `solve`: exact stock, waste,
foundations, tableaus (with face-up flags) and `stock_cycles` (a hashable
tuple in the source, a structure here). -/
structure StateKey where
  stock : List Nat
  waste : List Nat
  foundations : List Int
  tableaus : List (List (Nat × Bool))
  stock_cycles : Nat
deriving DecidableEq, Repr

/-- Source `state_key` as in `src/core/solver.py` lines 56–63 / 95–102. -/
def state_key (s : GameState) : StateKey :=
  ⟨s.stock, s.waste, s.foundations, s.tableaus, s.stock_cycles⟩

/-- A frontier entry `(priority, counter, cost, state, path)` as pushed on the
`heapq` heap in `solve`. -/
structure Entry where
  priority : Int
  counter : Nat
  cost : Nat
  state : GameState
  path : List Move
deriving DecidableEq, Repr

/-- The smaller of two entries in `heapq`'s tuple order: `(priority, counter)`
lexicographically (counters are unique, so comparison never reaches the
state). -/
def minEntry (a b : Entry) : Entry :=
  if b.priority < a.priority ∨ (b.priority = a.priority ∧ b.counter < a.counter)
  then b else a

/-- Python `heapq.heappop`: remove and return the least entry. -/
def popMin : List Entry → Option (Entry × List Entry)
  | [] => none
  | e :: rest =>
    let m := rest.foldl minEntry e
    some (m, (e :: rest).erase m)

/-- The `status_info["message"]` strings of `solve`, by constructor. -/
inductive Msg
  | starting
  | stoppedByUser
  | partialMsg (fc : Int)
  | foundMsg (n : Nat)
  | completedMsg (iters : Nat)
  | bestMsg (n : Nat)
deriving DecidableEq, Repr

/-- Observable events of one `solve` run: `cb` records an invocation of the
progress callback with its arguments (iteration count, budget, both bests,
message); `bpRep`/`bwRep` are ghost markers for replacements of
`best_solution`/`best_winning_solution` (they mark program points, they are
not calls). -/
inductive Ev
  | cb (iterations budget : Nat) (best : SolutionState)
       (bw : Option SolutionState) (msg : Msg)
  | bpRep (iterations : Nat)
  | bwRep (iterations : Nat)
deriving DecidableEq, Repr

/-- The mutable state of `solve`'s main loop, plus ghost instrumentation:
`events` (callback trace and replacement markers), `popped` (states actually
expanded, i.e. popped and not visited-skipped, with their paths) and `skips`
(number of visited-set skips). -/
structure SolveState where
  heap : List Entry
  counter : Nat
  visited : List StateKey
  best : SolutionState
  bw : Option SolutionState
  iterations : Nat
  msg : Msg
  stopped : Bool
  events : List Ev
  popped : List (GameState × List Move)
  skips : Nat
deriving DecidableEq, Repr

/-- The expansion inner loop of `solve` (lines 90–112): apply each move,
skip already-visited results, push the rest. `none` propagates an exception
from `apply_move` (never raised on moves produced by `available_moves`). -/
def pushAll (w : Int) (visited : List StateKey) (cost : Nat) (state : GameState)
    (path : List Move) (moves : List Move) (hc : List Entry × Nat) :
    Option (List Entry × Nat) :=
  moves.foldlM
    (fun hc move => do
      let next_state ← apply_move state move
      if state_key next_state ∈ visited then pure hc
      else
        let counter := hc.2 + 1
        let next_cost := cost + 1
        let priority := (next_cost : Int) - w * heuristic_score next_state
        pure (hc.1 ++ [⟨priority, counter, next_cost, next_state, path ++ [move]⟩],
              counter))
    hc

/-- Lines 52–67 of `solve`: record a fresh (non-visited) pop — remove it from
the frontier, mark its key visited, and log the expanded state (ghost). -/
def popRecord (st1 : SolveState) (e : Entry) (heap' : List Entry) : SolveState :=
  { st1 with
    heap := heap'
    visited := state_key e.state :: st1.visited
    popped := st1.popped ++ [(e.state, e.path)] }

/-- Lines 69–73 of `solve`: replace `best_solution` when strictly better;
only the status message is updated — no callback is invoked here. -/
def updateBest (st2 : SolveState) (e : Entry) : SolveState :=
  if st2.best.foundation_count < foundation_count e.state then
    { st2 with
      best := ⟨foundation_count e.state, e.path⟩
      msg := .partialMsg (foundation_count e.state)
      events := st2.events ++ [Ev.bpRep st2.iterations] }
  else st2

/-- Lines 75–87 of `solve`: on a won state, replace `best_winning_solution`
when unset or strictly shorter, and invoke the progress callback. -/
def updateWinning (budget : Nat) (st3 : SolveState) (e : Entry) : SolveState :=
  if is_won e.state then
    match st3.bw with
    | none =>
      { st3 with
        bw := some ⟨52, e.path⟩
        msg := .foundMsg e.path.length
        events := st3.events ++ [Ev.bwRep st3.iterations,
          Ev.cb st3.iterations budget st3.best (some ⟨52, e.path⟩)
            (Msg.foundMsg e.path.length)] }
    | some b =>
      if e.path.length < b.moves.length then
        { st3 with
          bw := some ⟨52, e.path⟩
          msg := .foundMsg e.path.length
          events := st3.events ++ [Ev.bwRep st3.iterations,
            Ev.cb st3.iterations budget st3.best (some ⟨52, e.path⟩)
              (Msg.foundMsg e.path.length)] }
      else st3
    else st3

/-- One fresh expansion of the main loop (lines 64–114): record the pop,
update the bests, expand the state's prioritized moves, bump `iterations`.
`none` propagates an exception from `apply_move` (never raised on generated
moves). -/
def solveStep (budget : Nat) (w : Int) (st1 : SolveState) (e : Entry)
    (heap' : List Entry) : Option SolveState :=
  let st4 := updateWinning budget (updateBest (popRecord st1 e heap') e) e
  match pushAll w st4.visited e.cost e.state e.path
      (prioritize_moves (available_moves e.state)) (st4.heap, st4.counter) with
  | none => none
  | some (heap2, counter2) =>
    some { st4 with
           heap := heap2
           counter := counter2
           iterations := st4.iterations + 1 }

/-- Lines 47–50 of `solve`: the periodic progress callback, issued at the top
of every loop pass whose expansion count is a multiple of 100 (also on
visited-skip passes, where `iterations` does not advance). -/
def periodicCb (budget : Nat) (st : SolveState) : SolveState :=
  if st.iterations % 100 = 0 then
    { st with events := st.events ++ [Ev.cb st.iterations budget st.best st.bw st.msg] }
  else st

/-- The main loop of `solve`, structurally recursive on `fuel` (`none` = fuel
exhausted; the Python loop needs no fuel, every pop removes a heap entry and
the budget bounds expansions). `cancel pass` models `keyboard.is_pressed('q')`
at the `pass`-th loop entry. Faithful ordering per iteration: cancellation
check, periodic callback, pop, visited check, then a fresh expansion via
`solveStep`. -/
def solveLoop (budget : Nat) (w : Int) (cancel : Nat → Bool) :
    Nat → SolveState → Nat → Option SolveState
  | 0, _, _ => none
  | fuel + 1, st, pass =>
    if st.heap = [] ∨ budget ≤ st.iterations then some st
    else if cancel pass then
      some { st with
             msg := .stoppedByUser
             stopped := true
             events := st.events ++ [Ev.cb st.iterations budget st.best st.bw .stoppedByUser] }
    else
      match popMin (periodicCb budget st).heap with
      | none => some (periodicCb budget st)
      | some (e, heap') =>
        if state_key e.state ∈ (periodicCb budget st).visited then
          solveLoop budget w cancel fuel
            { periodicCb budget st with
              heap := heap'
              skips := (periodicCb budget st).skips + 1 } (pass + 1)
        else
          match solveStep budget w (periodicCb budget st) e heap' with
          | none => none
          | some st5 => solveLoop budget w cancel fuel st5 (pass + 1)

/-- Result of a `solve` run: the returned `SolutionState` and the final
instrumented loop state. -/
structure SolveResult where
  returned : SolutionState
  final : SolveState
deriving DecidableEq, Repr

/-- Source `solve` from `src/core/solver.py`, fuel-indexed: initial push, main loop,
final progress update, then return `best_winning_solution` if set, else
`best_solution`. -/
def solveFuel (initial_state : GameState) (max_iterations : Nat) (w : Int)
    (cancel : Nat → Bool) (fuel : Nat) : Option SolveResult :=
  let e0 : Entry := ⟨(0 : Int) - w * heuristic_score initial_state, 0, 0, initial_state, []⟩
  let st0 : SolveState :=
    ⟨[e0], 0, [], ⟨0, []⟩, none, 0, .starting, false, [], [], 0⟩
  match solveLoop max_iterations w cancel fuel st0 0 with
  | none => none
  | some st =>
    let st1 := { st with
                 msg := .completedMsg st.iterations
                 events := st.events ++ [Ev.cb st.iterations max_iterations st.best st.bw
                   (Msg.completedMsg st.iterations)] }
    match st1.bw with
    | some b =>
      some ⟨b, { st1 with
        msg := .bestMsg b.moves.length
        events := st1.events ++ [Ev.cb st1.iterations max_iterations st1.best st1.bw
          (Msg.bestMsg b.moves.length)] }⟩
    | none => some ⟨st1.best, st1⟩

/-- A card record of the external reader state: `card.get('id')`
(`none` when the key is absent) and `card.get('face_up', False)`. -/
structure CardRec where
  id : Option Int
  face_up : Bool
deriving DecidableEq, Repr

/-- A pile record of the external reader state: `pile.get('id')` and
`pile.get('cards')`. -/
structure PileRec where
  pid : Option Int
  cards : Option (List CardRec)
deriving DecidableEq, Repr

/-- The external reader state: `reader_state.get('piles', [])` of a truthy
reader-state dict. A falsy `reader_state` (Python `None` or an empty dict) is
modelled as `none` of `Option ReaderState` at the conversion entry. -/
structure ReaderState where
  piles : List PileRec
deriving DecidableEq, Repr

/-- Outcome of `from_reader_state`: an uncaught exception (`exc`, e.g. the
`TypeError` from comparing a missing card id), the `None` return (`noState`),
or a built `GameState`. -/
inductive ConvResult
  | exc
  | noState
  | state (g : GameState)
deriving DecidableEq, Repr

/-- Accumulator of `from_reader_state`: stock, waste, foundations, tableaus. -/
abbrev ConvAcc :=
  List Nat × List Nat × List Int × List (List (Nat × Bool))

/-- Append a card id to a list when `0 <= card_id <= 51`, dropping it
otherwise; a missing id raises (`none`). -/
def pushCard (acc : List Nat) (cid : Option Int) : Option (List Nat) :=
  match cid with
  | none => none
  | some n => some (if 0 ≤ n ∧ n ≤ 51 then acc ++ [n.toNat] else acc)

/-- One pile of the `from_reader_state` conversion loop. -/
def convPile (acc : ConvAcc) (pile : PileRec) : Option ConvAcc := do
  match pile.pid, pile.cards with
  | none, _ => pure acc
  | _, none => pure acc
  | some pid, some cards =>
    let (stock, waste, foundations, tableaus) := acc
    if pid = 0 then
      let stock ← cards.foldlM (fun l card => pushCard l card.id) stock
      pure (stock, waste, foundations, tableaus)
    else if pid = 1 then
      let waste ← cards.foldlM (fun l card => pushCard l card.id) waste
      pure (stock, waste, foundations, tableaus)
    else if 2 ≤ pid ∧ pid ≤ 5 then
      let foundation_idx := (pid - 2).toNat
      match cards.getLast? with
      | none => pure (stock, waste, foundations, tableaus)
      | some top_card =>
        match top_card.id with
        | none => none
        | some n =>
          if 0 ≤ n ∧ n ≤ 51 then
            pure (stock, waste,
                  foundations.set foundation_idx (card_rank n.toNat : Int), tableaus)
          else pure (stock, waste, foundations, tableaus)
    else if 6 ≤ pid ∧ pid ≤ 12 then
      let tableau_idx := (pid - 6).toNat
      let t ← cards.foldlM
        (fun t card =>
          match card.id with
          | none => none
          | some n =>
            some (if 0 ≤ n ∧ n ≤ 51 then t ++ [(n.toNat, card.face_up)] else t))
        (tableaus.getD tableau_idx [])
      pure (stock, waste, foundations, tableaus.set tableau_idx t)
    else pure acc

/-- Source `from_reader_state` from `src/core/solver.py`: `None` in, `None` out;
otherwise fold the piles over the fresh accumulator and build a `GameState`
(with `stock_cycles = 0`). -/
def from_reader_state (reader_state : Option ReaderState) : ConvResult :=
  match reader_state with
  | none => .noState
  | some rs =>
    match rs.piles.foldlM convPile ([], [], [-1, -1, -1, -1], [[], [], [], [], [], [], []]) with
    | none => .exc
    | some (stock, waste, foundations, tableaus) =>
      .state ⟨stock, waste, foundations, tableaus, 0⟩

/-- The conversion guard at `solve`'s call site (`src/gui/app.py`,
`solve_thread`): `solver_state = solver.from_reader_state(...)`;
`if not solver_state: ... return` — a `GameState` is always truthy, so the
search runs exactly when a state object was produced (an exception unwinds
into the thread's `try`/`except` and also skips the search). -/
def search_invoked (r : ConvResult) : Bool :=
  match r with
  | .state _ => true
  | _ => false

/-- Face-up tableau card count, as the spec's §4.1 score formula phrases it. -/
def spec_face_up_count (s : GameState) : Int :=
  (s.tableaus.map fun t => ((t.filter fun x => x.2).length : Int)).sum

/-- Face-down tableau card count, as the spec's §4.1 score formula phrases it. -/
def spec_face_down_count (s : GameState) : Int :=
  (s.tableaus.map fun t => ((t.filter fun x => !x.2).length : Int)).sum

/-- The spec's §4.1 score formula, written as in the spec (refinement target
for `heuristic_score`). -/
def heuristic_score_spec (s : GameState) : Int :=
  ((s.foundations.filter fun r => 0 ≤ r).map fun r => (r + 1) * 10000).sum
  + 200 * spec_face_up_count s
  - 1000 * spec_face_down_count s
  - 30000 * (s.stock_cycles : Int)
  - 800 * (s.waste.length : Int)
  - 200 * (s.stock.length : Int)

/-- The card ids of a tableau pile (face flags dropped). -/
def tableauCardIds (t : List (Nat × Bool)) : List Nat := t.map fun x => x.1

/-- The cards a foundation slot holds, reconstructed from its top rank: for
rank `r ≥ 0` the cards of that suit with ranks `0..r` (card id of rank `k`
and suit `i` is `4*k + i`); an empty slot (`r < 0`) holds nothing. -/
def foundationCards (suit : Nat) (r : Int) : Multiset Nat :=
  if 0 ≤ r then ((List.range (r.toNat + 1)).map fun k => 4 * k + suit : List Nat)
  else 0

/-- Cards of all foundation slots, the slot at position `i` having suit
`suit0 + i`. -/
def foundBag : Nat → List Int → Multiset Nat
  | _, [] => 0
  | suit0, r :: rest => foundationCards suit0 r + foundBag (suit0 + 1) rest

/-- Cards of all tableaus. -/
def tabBag (ts : List (List (Nat × Bool))) : Multiset Nat :=
  (ts.map fun t => (tableauCardIds t : Multiset Nat)).sum

/-- The multiset of card ids a state accounts for: stock, waste, foundations
(reconstructed from placed ranks) and tableaus. -/
def cardBag (s : GameState) : Multiset Nat :=
  (s.stock : Multiset Nat) + (s.waste : Multiset Nat)
    + foundBag 0 s.foundations + tabBag s.tableaus

/-- A valid initial state: the structural pile counts (4 foundations,
7 tableaus) and each of the 52 card ids accounted for exactly once. -/
def ValidInit (s : GameState) : Prop :=
  s.foundations.length = 4 ∧ s.tableaus.length = 7 ∧
    cardBag s = Multiset.range 52

/-- Reachability by moves produced by `available_moves` and applied by
`apply_move`. -/
inductive Reachable (s0 : GameState) : GameState → Prop
  | refl : Reachable s0 s0
  | step {s s' : GameState} {m : Move} : Reachable s0 s →
      m ∈ available_moves s → apply_move s m = some s' → Reachable s0 s'

/-- Clubs and spades are black. -/
def isBlackCard (c : Nat) : Bool := card_suit c == 0 || card_suit c == 3

/-- Card `c` may be stacked directly on `top` in a tableau: opposite colors and
exactly one rank lower. -/
def canStack (c top : Nat) : Bool :=
  (isBlackCard c != isBlackCard top)
    && ((card_rank c : Int) == (card_rank top : Int) - 1)

/-- Adjacent tableau cards (lower card first): the later card stacks on the
earlier. -/
def RunRel (a b : Nat × Bool) : Prop := canStack b.1 a.1 = true

/-- The tableau invariant of the spec's §3 data model: face-down cards form a
contiguous prefix, face-up cards a contiguous suffix that is a strictly
descending alternating-color run. -/
def TabInv (t : List (Nat × Bool)) : Prop :=
  ∃ d u, t = d ++ u ∧ (∀ x ∈ d, x.2 = false) ∧ (∀ x ∈ u, x.2 = true)
    ∧ List.Chain' RunRel u

/-- All tableaus of a state satisfy the tableau invariant. -/
def AllTabInv (s : GameState) : Prop := ∀ t ∈ s.tableaus, TabInv t

/-- Face-down cards form a contiguous prefix (the part of the tableau
invariant claim C10 assumes; no run condition). -/
def FaceDownPart (t : List (Nat × Bool)) : Prop :=
  ∃ d u, t = d ++ u ∧ (∀ x ∈ d, x.2 = false) ∧ (∀ x ∈ u, x.2 = true)

/-- A winning state was popped (expanded) during the run. -/
def PoppedWon (r : SolveResult) : Prop :=
  ∃ q ∈ r.final.popped, is_won q.1 = true

/-- Callback-shape predicate: every callback the loop emits is either a
periodic one (iteration count ≡ 0 mod 100) or carries one of the messages
set at a best-winning replacement, user stop, or termination. -/
def cbOk (e : Ev) : Bool :=
  match e with
  | .cb it _ _ _ m =>
    (it % 100 == 0) ||
      (match m with
       | .foundMsg _ => true
       | .stoppedByUser => true
       | .completedMsg _ => true
       | .bestMsg _ => true
       | _ => false)
  | _ => true

/-- Every best-winning replacement marker is immediately followed by a
callback at the same iteration count. -/
def bwRepCb : List Ev → Bool
  | [] => true
  | .cb _ _ _ _ _ :: rest => bwRepCb rest
  | .bpRep _ :: rest => bwRepCb rest
  | .bwRep i :: rest =>
    (match rest with
     | .cb j _ _ _ _ :: _ => i == j
     | _ => false) && bwRepCb rest

/-- Is this event a callback passing iteration count `i`? -/
def cbAtIter (i : Nat) (e : Ev) : Bool :=
  match e with
  | .cb j _ _ _ _ => j == i
  | _ => false

/-- No callback in the trace passes iteration count `i`. -/
def noCbAtIter (i : Nat) (l : List Ev) : Bool := l.all fun e => !cbAtIter i e

/-- Summary of a run used by the recycling counterexample: visited-set skips,
expansions performed, and whether the frontier was exhausted. -/
def runSummary (o : Option SolveResult) : Option (Nat × Nat × Bool) :=
  match o with
  | none => none
  | some r => some (r.final.skips, r.final.iterations, r.final.heap.isEmpty)

/-- Invariant of `solve`'s best-partial tracker: `best_solution` dominates the
`foundation_count` of every expanded state and is either the initial
`SolutionState()` or the record of some expanded state. -/
def InvBest (st : SolveState) : Prop :=
  (∀ q ∈ st.popped, foundation_count q.1 ≤ st.best.foundation_count)
  ∧ (st.best = ⟨0, []⟩ ∨ ∃ q ∈ st.popped,
      foundation_count q.1 = st.best.foundation_count ∧ st.best.moves = q.2)

/-- Invariant of `solve`'s best-winning tracker: unset iff no expanded state
was won; when set it records 52 and a shortest winning path among the
expanded winning states. -/
def InvBW (st : SolveState) : Prop :=
  match st.bw with
  | none => ∀ q ∈ st.popped, is_won q.1 = false
  | some b => b.foundation_count = 52
      ∧ (∃ q ∈ st.popped, is_won q.1 = true ∧ b.moves = q.2)
      ∧ ∀ q ∈ st.popped, is_won q.1 = true → b.moves.length ≤ q.2.length

/-- Invariant of the event trace: every callback has a periodic iteration
count or a replacement/stop/termination message, and every best-winning
replacement is immediately followed by its callback. -/
def goodEvents (l : List Ev) : Prop :=
  l.all cbOk = true ∧ bwRepCb l = true

/-- The loop invariant of `solve`. -/
def SolveInv (st : SolveState) : Prop :=
  InvBest st ∧ InvBW st ∧ goodEvents st.events

/-- What C4 asserts of a finished run: the returned solution is the best
winning solution if any expanded state was won — a `SolutionState` with
`foundation_count` 52 carrying a shortest winning path among those expanded —
and otherwise the best partial solution: the path of an expanded state of
maximal `foundation_count`, or the zero-progress `SolutionState`. -/
def ReturnedBestSpec (r : SolveResult) : Prop :=
  ((∀ q ∈ r.final.popped, is_won q.1 = false) →
    r.final.bw = none ∧ r.returned = r.final.best
    ∧ (∀ q ∈ r.final.popped, foundation_count q.1 ≤ r.returned.foundation_count)
    ∧ (r.returned = ⟨0, []⟩ ∨ ∃ q ∈ r.final.popped,
        foundation_count q.1 = r.returned.foundation_count ∧ r.returned.moves = q.2))
  ∧ (∀ q0 ∈ r.final.popped, is_won q0.1 = true →
      r.final.bw = some r.returned ∧ r.returned.foundation_count = 52
      ∧ (∃ q ∈ r.final.popped, is_won q.1 = true ∧ r.returned.moves = q.2)
      ∧ (∀ q ∈ r.final.popped, is_won q.1 = true →
          r.returned.moves.length ≤ q.2.length))

/-- A placeholder result for `Option.getD`. -/
def defaultSolveResult : SolveResult :=
  ⟨⟨0, []⟩, ⟨[], 0, [], ⟨0, []⟩, none, 0, Msg.starting, false, [], [], 0⟩⟩

/-- A state used by the malformed-move counterexample. -/
def c1state : GameState :=
  ⟨[], [10], [-1, -1, -1, -1], [[(8, true)], [], [], [], [], [], [(9, false)]], 0⟩

/-- Waste holds the ace of clubs, everything else empty: the deal of the
progress-callback counterexample. -/
def d5state : GameState :=
  ⟨[], [0], [-1, -1, -1, -1], [[], [], [], [], [], [], []], 0⟩

/-- The run of `solve` on `d5state` with budget 3. -/
def c5run : Option SolveResult := solveFuel d5state 3 1 (fun _ => false) 20

/-- The callback/replacement trace of `c5run`. -/
def c5events : List Ev :=
  match c5run with
  | some r => r.final.events
  | none => []

/-- The concrete run used as the C4 witness (budget 5 on the ace deal). -/
def c4res : SolveResult :=
  (solveFuel d5state 5 1 (fun _ => false) 30).getD defaultSolveResult

/-- The concrete run used as the C5 witness. -/
def c5res : SolveResult :=
  (solveFuel d5state 3 1 (fun _ => false) 20).getD defaultSolveResult

/-- Stock empty, waste holds card 6 (a red two), all piles otherwise empty:
the only legal move is drawing/recycling forever. -/
def d6state : GameState :=
  ⟨[], [6], [-1, -1, -1, -1], [[], [], [], [], [], [], []], 0⟩

/-- The run of `solve` on `d6state` with budget 6. -/
def c6run : Option SolveResult := solveFuel d6state 6 1 (fun _ => false) 40

/-- The run of `solve` on `d6state` with budget 12. -/
def c6bigrun : Option SolveResult := solveFuel d6state 12 1 (fun _ => false) 60

/-- A full 52-card initial deal used as a conservation witness: cards 0–44 in
stock, 45 face-down in tableau 1, 46–51 face-up across the other tableaus. -/
def c2state : GameState :=
  ⟨List.range 45, [], [-1, -1, -1, -1],
   [[(45, false)], [(46, true)], [(47, true)], [(48, true)], [(49, true)],
    [(50, true)], [(51, true)]], 0⟩

/-- The malformed reader state of the conversion counterexample: one stock
pile whose only card id (99) is invalid, so conversion yields a state with no
cards at all — yet a state. -/
def c9bad : Option ReaderState :=
  some ⟨[⟨some 0, some [⟨some 99, false⟩]⟩]⟩

/-- The cardless state `from_reader_state` builds from `c9bad`. -/
def c9empty : GameState :=
  ⟨[], [], [-1, -1, -1, -1], [[], [], [], [], [], [], []], 0⟩

/-- A state with one ace placed, for the monotonicity witness. -/
def c7hi : GameState :=
  ⟨[], [], [0, -1, -1, -1], [[], [], [], [], [], [], []], 3⟩

/-- Like `c7hi` but with empty foundations. -/
def c7lo : GameState :=
  ⟨[], [], [-1, -1, -1, -1], [[], [], [], [], [], [], []], 3⟩

/-- Tableau 1 holds a face-down 5 under a face-up 30 (8 of hearts); tableau 2
holds a face-up 35 (9 of spades): the sequence-move witness state. -/
def c10state : GameState :=
  ⟨[], [], [-1, -1, -1, -1],
   [[(5, false), (30, true)], [(35, true)], [], [], [], [], []], 0⟩

theorem card_rank_eq (c : Nat) : card_rank c = c / 4 := by
  simp [card_rank, Nat.shiftRight_eq_div_pow]

theorem card_suit_eq (c : Nat) : card_suit c = c % 4 := by
  have h : (3 : Nat) = 2 ^ 2 - 1 := by norm_num
  simp only [card_suit, h, Nat.and_pow_two_sub_one_eq_mod]

theorem card_suit_lt (c : Nat) : card_suit c < 4 := by
  rw [card_suit_eq]; omega

theorem card_eq_rank_suit (c : Nat) : 4 * card_rank c + card_suit c = c := by
  rw [card_rank_eq, card_suit_eq]; omega

theorem heuristic_score_decomp (s : GameState) :
    heuristic_score s = foundation_count s * 10000
      + (s.tableaus.map fun t => 200 * ((t.filter fun x => x.2).length : Int)).sum
      - (s.tableaus.map fun t => 1000 * ((t.filter fun x => !x.2).length : Int)).sum
      - (s.stock_cycles : Int) * 30000 - (s.waste.length : Int) * 800
      - (s.stock.length : Int) * 200 := by
  unfold heuristic_score foundation_count
  rw [← List.sum_map_mul_right]

/-- C8: for every game state, `heuristic_score` returns exactly the weighted
linear combination of the spec's §4.1 formula: Σ over placed foundations of
`(rank+1)*10000`, plus 200 per face-up tableau card, minus 1000 per face-down
tableau card, minus 30000 per stock cycle, minus 800 per waste card, minus
200 per stock card. -/
theorem heuristic_score_eq_spec (s : GameState) :
    heuristic_score s = heuristic_score_spec s := by
  unfold heuristic_score heuristic_score_spec spec_face_up_count spec_face_down_count
  rw [← List.sum_map_mul_left, ← List.sum_map_mul_left]
  ring

/-- C7: of two states that differ only in their foundations, the one with the
strictly greater `foundation_count` has the strictly greater
`heuristic_score`. -/
theorem heuristic_monotone_in_foundation_count (s1 s2 : GameState)
    (hstock : s1.stock = s2.stock) (hwaste : s1.waste = s2.waste)
    (htab : s1.tableaus = s2.tableaus) (hcyc : s1.stock_cycles = s2.stock_cycles)
    (hfc : foundation_count s2 < foundation_count s1) :
    heuristic_score s2 < heuristic_score s1 := by
  rw [heuristic_score_decomp, heuristic_score_decomp, hstock, hwaste, htab, hcyc]
  have h10 := mul_lt_mul_of_pos_right hfc (by norm_num : (0 : Int) < 10000)
  omega

/-- Witness for C7 at a concrete pair of states. -/
theorem heuristic_monotone_in_foundation_count_witness :
    heuristic_score c7lo < heuristic_score c7hi :=
  heuristic_monotone_in_foundation_count c7hi c7lo rfl rfl rfl rfl (by decide)

theorem digitsRev_lt : ∀ fuel n, ∀ d ∈ digitsRev fuel n, d < 10 := by
  intro fuel
  induction fuel with
  | zero => intro n d hd; simp [digitsRev] at hd
  | succ f ih =>
    intro n d hd
    rw [digitsRev] at hd
    by_cases h0 : n = 0
    · simp [h0] at hd
    · simp [h0] at hd
      rcases hd with h | h
      · omega
      · exact ih _ _ h

theorem digitsRev_ne_nil (fuel n : Nat) (h1 : n ≠ 0) (h2 : 1 ≤ fuel) :
    digitsRev fuel n ≠ [] := by
  obtain ⟨f, rfl⟩ : ∃ f, fuel = f + 1 := ⟨fuel - 1, by omega⟩
  simp [digitsRev, h1]

theorem foldl_digitsRev : ∀ fuel n acc, n ≤ fuel →
    (digitsRev fuel n).reverse.foldl (fun a d => a * 10 + d) acc
      = acc * 10 ^ (digitsRev fuel n).length + n := by
  intro fuel
  induction fuel with
  | zero => intro n acc h; interval_cases n; simp [digitsRev]
  | succ f ih =>
    intro n acc h
    rw [digitsRev]
    by_cases h0 : n = 0
    · simp [h0]
    · have hdiv : n / 10 ≤ f := by omega
      simp only [h0, if_false, List.reverse_cons, List.foldl_append,
        List.foldl_cons, List.foldl_nil, List.length_cons]
      rw [ih (n / 10) acc hdiv]
      have : n / 10 * 10 + n % 10 = n := by omega
      ring_nf
      omega

theorem digitChar_facts (d : Nat) (h : d < 10) :
    digitVal (Char.ofNat (48 + d)) = some d
      ∧ Char.ofNat (48 + d) ≠ '-' ∧ Char.ofNat (48 + d) ≠ '+' := by
  interval_cases d <;> exact ⟨by decide, by decide, by decide⟩

theorem parseDigits_mapped : ∀ (ds : List Nat) (acc : Nat), (∀ d ∈ ds, d < 10) →
    (ds.map fun d => Char.ofNat (48 + d)).foldlM
        (fun acc ch => (digitVal ch).map fun d => acc * 10 + d) acc
      = some (ds.foldl (fun a d => a * 10 + d) acc) := by
  intro ds
  induction ds with
  | nil => intro acc _; rfl
  | cons d rest ih =>
    intro acc hds
    have hd : d < 10 := hds d (by simp)
    simp only [List.map_cons, List.foldlM_cons, (digitChar_facts d hd).1,
      Option.map_some', Option.bind_some]
    exact ih _ (fun x hx => hds x (by simp [hx]))

theorem pyInt_natToChars (n : Nat) : pyInt (natToChars n) = some (n : Int) := by
  by_cases h0 : n = 0
  · subst h0; decide
  · obtain ⟨m, rfl⟩ : ∃ m, n = m + 1 := ⟨n - 1, by omega⟩
    have hne : digitsRev (m + 1) (m + 1) ≠ [] := digitsRev_ne_nil _ _ h0 (by omega)
    have hlt : ∀ d ∈ (digitsRev (m + 1) (m + 1)).reverse, d < 10 := by
      intro d hd
      exact digitsRev_lt _ _ d (List.mem_reverse.mp hd)
    unfold natToChars
    rw [if_neg h0]
    obtain ⟨c0, cs, hcons⟩ : ∃ c0 cs, (digitsRev (m + 1) (m + 1)).reverse = c0 :: cs := by
      rcases hrev : (digitsRev (m + 1) (m + 1)).reverse with _ | ⟨c0, cs⟩
      · exact absurd (by simpa using congrArg List.reverse hrev) hne
      · exact ⟨c0, cs, rfl⟩
    have hc0 : c0 < 10 := hlt c0 (by simp [hcons])
    rw [hcons]
    simp only [List.map_cons, pyInt]
    rw [if_neg (digitChar_facts c0 hc0).2.1, if_neg (digitChar_facts c0 hc0).2.2]
    have hparse : parseDigits (Char.ofNat (48 + c0) :: cs.map fun d => Char.ofNat (48 + d))
        = some ((c0 :: cs).foldl (fun a d => a * 10 + d) 0) := by
      unfold parseDigits
      rw [if_neg (by simp)]
      have := parseDigits_mapped (c0 :: cs) 0 (by rw [← hcons]; exact hlt)
      simpa using this
    rw [hparse]
    have hval : (c0 :: cs).foldl (fun a d => a * 10 + d) 0 = m + 1 := by
      have := foldl_digitsRev (m + 1) (m + 1) 0 (le_refl _)
      rw [hcons] at this
      simpa using this
    rw [hval]
    simp

theorem natToChars_digit (n : Nat) : ∀ c ∈ natToChars n, 48 ≤ c.toNat ∧ c.toNat ≤ 57 := by
  intro c hc
  unfold natToChars at hc
  by_cases h0 : n = 0
  · simp [h0] at hc
    simp [hc]
  · rw [if_neg h0] at hc
    obtain ⟨d, hd, rfl⟩ := List.mem_map.mp hc
    have hlt : d < 10 := digitsRev_lt _ _ d (List.mem_reverse.mp hd)
    interval_cases d <;> exact ⟨by decide, by decide⟩

theorem tokT_ne_tokTALON (n : Nat) : tokT n ≠ tokTALON := by
  intro h
  unfold tokT tokTALON at h
  have h2 : natToChars n = ['A', 'L', 'O', 'N'] := by
    have := List.tail_eq_of_cons_eq h
    simpa using this
  have := natToChars_digit n 'A' (by rw [h2]; simp)
  exact absurd this (by decide)

theorem isPrefixOf_F_tokF (n : Nat) : ['F'].isPrefixOf (tokF n) = true := by
  simp [tokF, List.isPrefixOf]

theorem isPrefixOf_T_tokT (n : Nat) : ['T'].isPrefixOf (tokT n) = true := by
  simp [tokT, List.isPrefixOf]

theorem isPrefixOf_F_tokT (n : Nat) : ['F'].isPrefixOf (tokT n) = false := by
  simp [tokT, List.isPrefixOf]

theorem isPrefixOf_T_tokTALON : ['T'].isPrefixOf tokTALON = true := by decide

theorem tokT_drop_one (n : Nat) : (tokT n).drop 1 = natToChars n := rfl

theorem tokF_drop_one (n : Nat) : (tokF n).drop 1 = natToChars n := rfl

theorem pyIdx_nat (len : Nat) (i : Nat) (h : i < len) : pyIdx len i = some i := by
  unfold pyIdx
  rw [if_pos (by omega), if_pos (by exact_mod_cast h)]
  simp

theorem pyGet_nat (l : List α) (i : Nat) (h : i < l.length) :
    pyGet l i = some (l.get ⟨i, h⟩) := by
  unfold pyGet
  rw [pyIdx_nat _ _ h]
  simp [List.get?_eq_get h]

theorem pySet_nat (l : List α) (i : Nat) (h : i < l.length) (v : α) :
    pySet l i v = some (l.set i v) := by
  unfold pySet
  rw [pyIdx_nat _ _ h]
  rfl

/-- C1 counterexample: `apply_move` does *not* silently no-op on every
statically malformed move. An empty move (wrong arity) raises `IndexError`
reading `move[0]`, and a two-token tableau→foundation move naming the
nonexistent pile `T9` raises `IndexError` indexing `tableaus[8]`; both are
modelled as `none`, not `some c1state`. -/
theorem apply_move_malformed_raises :
    apply_move c1state [] = none
      ∧ apply_move c1state [tokT 9, tokF 1] = none := by
  constructor
  · rfl
  · decide

/-- C1 amended: `apply_move` is not a silent no-op on every malformed move
(the counterexample exhibits malformed moves that raise); the following
malformed shapes ARE silent no-ops, each established by one conjunct below:
(1) any single-token move other than `["DECK"]` (including `["TALON"]` and
`["F1"]`: every other branch also tests arity); (2) any two-token move whose
action token is not `"T"`-prefixed, not `"TALON"` and not `"DECK"` (e.g.
`["F1","F2"]`); (3) a two-token `TALON` move with empty waste; (4) a
two-token `"T"`-headed non-`TALON` move whose second token is not
`"F"`-prefixed; (5) a two-token `"T"`-headed non-`TALON` foundation move
whose in-range source tableau is empty; (6) a three-token `"T"`-headed move
whose parsed indices are out of range (not `0 <= idx < 7`) or equal; (7) a
two-token `TALON` move whose destination starts with neither `"F"` nor
`"T"`, regardless of waste; (8) a three-token `"T"`-headed move with
in-range, distinct indices whose source tableau is empty. -/
theorem apply_move_malformed_noop (s : GameState) (a b c : Str) (fi n ti : Int) :
    (a ≠ tokDECK → apply_move s [a] = some s)
    ∧ (¬ ['T'].isPrefixOf a → a ≠ tokTALON → a ≠ tokDECK →
        apply_move s [a, b] = some s)
    ∧ (s.waste = [] → apply_move s [tokTALON, b] = some s)
    ∧ (['T'].isPrefixOf a → a ≠ tokTALON → ¬ ['F'].isPrefixOf b →
        apply_move s [a, b] = some s)
    ∧ (['T'].isPrefixOf a → a ≠ tokTALON → ['F'].isPrefixOf b →
        pyInt (a.drop 1) = some fi → pyGet s.tableaus (fi - 1) = some [] →
        apply_move s [a, b] = some s)
    ∧ (['T'].isPrefixOf a → pyInt (a.drop 1) = some fi → pyInt b = some n →
        pyInt (c.drop 1) = some ti →
        (¬ (0 ≤ fi - 1 ∧ fi - 1 < 7) ∨ ¬ (0 ≤ ti - 1 ∧ ti - 1 < 7)
          ∨ fi - 1 = ti - 1) →
        apply_move s [a, b, c] = some s)
    ∧ (¬ ['F'].isPrefixOf b → ¬ ['T'].isPrefixOf b →
        apply_move s [tokTALON, b] = some s)
    ∧ (['T'].isPrefixOf a → pyInt (a.drop 1) = some fi → pyInt b = some n →
        pyInt (c.drop 1) = some ti →
        (0 ≤ fi - 1 ∧ fi - 1 < 7) → (0 ≤ ti - 1 ∧ ti - 1 < 7) →
        fi - 1 ≠ ti - 1 → pyGet s.tableaus (fi - 1) = some [] →
        apply_move s [a, b, c] = some s) := by
  refine ⟨?_, ?_, ?_, ?_, ?_, ?_, ?_, ?_⟩
  · intro hd
    simp [apply_move, hd]
  · intro hT hTal hd
    simp [apply_move, hTal, hT, hd]
  · intro hw
    simp only [apply_move, if_pos rfl, applyTalon2, hw, List.getLast?_nil]
    by_cases hF : ['F'].isPrefixOf b
    · simp [hF]
    · by_cases hT : ['T'].isPrefixOf b
      · simp [hF, hT]
      · simp [hF, hT]
  · intro hT hTal hF
    simp [apply_move, hTal, hT, applyTab2, hF]
  · intro hT hTal hF hparse hget
    rw [List.drop_one] at hparse
    simp [apply_move, hTal, hT, applyTab2, hF, hparse, hget]
  · intro hT hparse hcount hdest hbad
    simp only [apply_move, hT, if_true, applyTab3, hparse, hcount, hdest,
      Option.map_some', Option.bind_eq_bind, Option.some_bind]
    rw [if_pos hbad]
  · intro hF hT
    simp only [apply_move, if_pos rfl, applyTalon2]
    simp [hF, hT]
  · intro hT hparse hcount hdest h1 h2 hne hget
    simp only [apply_move, hT, if_true, applyTab3, hparse, hcount, hdest,
      Option.map_some', Option.bind_eq_bind, Option.some_bind]
    rw [if_neg (by push_neg; exact ⟨h1, h2, hne⟩)]
    simp [hget]

/-- Witness for the amended C1 at concrete malformed moves, one per conjunct
(unknown single-token action; unknown two-token action; empty waste;
non-foundation destination; empty in-range source for the two-token
foundation move; out-of-range three-token indices; `TALON` to an
unrecognized destination; empty in-range source for the three-token move). -/
theorem apply_move_malformed_noop_witness :
    apply_move c9empty [tokT 3] = some c9empty
    ∧ apply_move c9empty [tokF 1, tokF 2] = some c9empty
    ∧ apply_move c9empty [tokTALON, tokF 2] = some c9empty
    ∧ apply_move c9empty [tokT 3, tokT 2] = some c9empty
    ∧ apply_move c9empty [tokT 3, tokF 2] = some c9empty
    ∧ apply_move c9empty [tokT 1, natToChars 2, tokT 9] = some c9empty
    ∧ apply_move c9empty [tokTALON, ['X']] = some c9empty
    ∧ apply_move c9empty [tokT 1, natToChars 0, tokT 2] = some c9empty :=
  ⟨(apply_move_malformed_noop c9empty (tokT 3) (tokF 2) (tokT 9) 3 2 9).1
      (by decide),
   (apply_move_malformed_noop c9empty (tokF 1) (tokF 2) (tokT 9) 3 2 9).2.1
      (by decide) (by decide) (by decide),
   (apply_move_malformed_noop c9empty (tokT 3) (tokF 2) (tokT 9) 3 2 9).2.2.1
      rfl,
   (apply_move_malformed_noop c9empty (tokT 3) (tokT 2) (tokT 9) 3 2 9).2.2.2.1
      (by decide) (by decide) (by decide),
   (apply_move_malformed_noop c9empty (tokT 3) (tokF 2) (tokT 9) 3 2 9).2.2.2.2.1
      (by decide) (by decide) (by decide) (by decide) (by decide),
   (apply_move_malformed_noop c9empty (tokT 1) (natToChars 2) (tokT 9) 1 2 9).2.2.2.2.2.1
      (by decide) (by decide) (by decide) (by decide) (by decide),
   (apply_move_malformed_noop c9empty (tokT 3) (['X']) (tokT 9) 3 2 9).2.2.2.2.2.2.1
      (by decide) (by decide),
   (apply_move_malformed_noop c9empty (tokT 1) (natToChars 0) (tokT 2) 1 0 2).2.2.2.2.2.2.2
      (by decide) (by decide) (by decide) (by decide) (by decide) (by decide)
      (by decide) (by decide)⟩

theorem pyGet_of_get? (l : List α) (i : Nat) (v : α) (h : l.get? i = some v) :
    pyGet l (i : Int) = some v := by
  have hi : i < l.length := (List.get?_eq_some.mp h).1
  rw [pyGet_nat l i hi, ← List.get?_eq_get hi, h]

theorem pySet_of_get? (l : List α) (i : Nat) (v : α) (x : α) (h : l.get? i = some v) :
    pySet l (i : Int) x = some (l.set i x) :=
  pySet_nat l i (List.get?_eq_some.mp h |>.1) x

theorem parse_tokT_sub_one (i : Nat) :
    (pyInt ((tokT (i + 1)).drop 1)).map (fun n => n - 1) = some (i : Int) := by
  rw [tokT_drop_one, pyInt_natToChars]
  simp only [Option.map_some']
  congr 1
  push_cast
  ring

theorem apply_talon_foundation (s : GameState) (c : Nat) (k : Nat) (v : Int)
    (hw : s.waste.getLast? = some c)
    (hv : s.foundations.get? (card_suit c) = some v) :
    apply_move s [tokTALON, tokF k] = some
      { s with waste := s.waste.dropLast,
               foundations := s.foundations.set (card_suit c) (v + 1) } := by
  simp only [apply_move, if_pos rfl, applyTalon2, isPrefixOf_F_tokF, if_true, hw,
    pyGet_of_get? _ _ _ hv, pySet_of_get? _ _ _ _ hv, Option.bind_eq_bind,
    Option.some_bind]
  rfl

theorem apply_talon_tableau (s : GameState) (c : Nat) (i : Nat)
    (ti : List (Nat × Bool))
    (hw : s.waste.getLast? = some c)
    (hti : s.tableaus.get? i = some ti) :
    apply_move s [tokTALON, tokT (i + 1)] = some
      { s with waste := s.waste.dropLast,
               tableaus := s.tableaus.set i (ti ++ [(c, true)]) } := by
  have hF : ['F'].isPrefixOf (tokT (i + 1)) = false := isPrefixOf_F_tokT _
  have hT : ['T'].isPrefixOf (tokT (i + 1)) = true := isPrefixOf_T_tokT _
  simp only [apply_move, if_pos rfl, applyTalon2, hF, Bool.false_eq_true,
    if_false, hT, if_true, hw, tokT_drop_one, List.drop_one]
  rw [show (tokT (i + 1)).tail = natToChars (i + 1) from rfl]
  simp only [pyInt_natToChars, Option.map_some', Option.bind_eq_bind, Option.some_bind]
  have hidx : ((i : Int) + 1 - 1) = (i : Int) := by ring
  rw [show ((((i : Nat) + 1 : Nat) : Int) - 1) = (i : Int) by push_cast; ring]
  simp only [pyGet_of_get? _ _ _ hti, pySet_of_get? _ _ _ _ hti, Option.some_bind]
  rfl

theorem apply_tab_foundation (s : GameState) (i : Nat) (c : Nat) (f : Bool)
    (k : Nat) (v : Int) (ti : List (Nat × Bool))
    (hti : s.tableaus.get? i = some ti)
    (hlast : ti.getLast? = some (c, f))
    (hv : s.foundations.get? (card_suit c) = some v) :
    apply_move s [tokT (i + 1), tokF k] = some
      { s with foundations := s.foundations.set (card_suit c) (v + 1),
               tableaus := s.tableaus.set i (flipLastIfDown ti.dropLast) } := by
  have hT : ['T'].isPrefixOf (tokT (i + 1)) = true := isPrefixOf_T_tokT _
  simp only [apply_move, if_neg (tokT_ne_tokTALON (i + 1)), hT, if_true, applyTab2,
    isPrefixOf_F_tokF, not_true, Bool.not_eq_true, if_false, List.drop_one]
  rw [show (tokT (i + 1)).tail = natToChars (i + 1) from rfl]
  simp only [pyInt_natToChars, Option.map_some', Option.bind_eq_bind, Option.some_bind]
  rw [show ((((i : Nat) + 1 : Nat) : Int) - 1) = (i : Int) by push_cast; ring]
  simp only [pyGet_of_get? _ _ _ hti, Option.some_bind, hlast,
    pyGet_of_get? _ _ _ hv, pySet_of_get? _ _ _ _ hv, Option.some_bind]
  have h7 : i < s.tableaus.length := (List.get?_eq_some.mp hti).1
  rw [pySet_nat _ _ h7]
  rfl

theorem apply_deck_eq (s : GameState) : apply_move s [tokDECK] = some (applyDeck s) := by
  simp [apply_move]

theorem apply_tab_sequence (s : GameState) (i j seq_start : Nat)
    (ti tj : List (Nat × Bool))
    (hi : i < 7) (hj : j < 7) (hij : i ≠ j)
    (hti : s.tableaus.get? i = some ti) (htj : s.tableaus.get? j = some tj)
    (hlen : seq_start < ti.length) :
    apply_move s [tokT (i + 1), natToChars (ti.length - seq_start - 1), tokT (j + 1)]
      = some { s with
               tableaus := (s.tableaus.set i
                 (flipLastIfDown (ti.take seq_start))).set j
                   (tj ++ ti.drop seq_start) } := by
  have hT : ['T'].isPrefixOf (tokT (i + 1)) = true := isPrefixOf_T_tokT _
  simp only [apply_move, hT, if_true, applyTab3, tokT_drop_one, pyInt_natToChars,
    Option.map_some', Option.bind_eq_bind, Option.some_bind]
  rw [show ((((i : Nat) + 1 : Nat) : Int) - 1) = (i : Int) by push_cast; ring]
  rw [show ((((j : Nat) + 1 : Nat) : Int) - 1) = (j : Int) by push_cast; ring]
  rw [if_neg (by omega)]
  simp only [pyGet_of_get? _ _ _ hti, pyGet_of_get? _ _ _ htj, Option.some_bind]
  rw [if_neg (by intro h; rw [h] at hlen; simp at hlen)]
  have h1 : ((ti.length - seq_start - 1 : Nat) : Int) = (ti.length : Int) - (seq_start : Int) - 1 := by
    omega
  have hstart : (0 ⊔ ((ti.length : Int) - ((ti.length - seq_start - 1 : Nat) : Int) - 1)).toNat
      = seq_start := by
    rw [h1, show (ti.length : Int) - ((ti.length : Int) - (seq_start : Int) - 1) - 1
        = (seq_start : Int) from by ring,
      sup_eq_right.mpr (by positivity : (0 : Int) ≤ (seq_start : Int))]
    omega
  rw [hstart]
  rw [pySet_of_get? _ _ _ _ hti]
  have hjlen : j < (s.tableaus.set i (flipLastIfDown (ti.take seq_start))).length := by
    rw [List.length_set]
    exact (List.get?_eq_some.mp htj).1
  simp only [Option.some_bind]
  rw [pySet_nat _ _ hjlen]
  rfl

theorem mem_available_moves (s : GameState) (m : Move) (hm : m ∈ available_moves s) :
    (∃ c, s.waste.getLast? = some c ∧ can_move_to_foundation s c = true
      ∧ m = [tokTALON, tokF (card_suit c + 1)])
    ∨ (∃ c i ti, s.waste.getLast? = some c ∧ s.tableaus.get? i = some ti
      ∧ can_move_to_tableau c ti = true ∧ m = [tokTALON, tokT (i + 1)])
    ∨ (∃ i ti c, s.tableaus.get? i = some ti ∧ ti.getLast? = some (c, true)
      ∧ can_move_to_foundation s c = true
      ∧ m = [tokT (i + 1), tokF (card_suit c + 1)])
    ∨ (∃ i ti j tj seq_start, s.tableaus.get? i = some ti
      ∧ s.tableaus.get? j = some tj
      ∧ i ≠ j ∧ (ti.findIdx fun x => x.2) ≤ seq_start ∧ seq_start < ti.length
      ∧ can_move_sequence (ti.drop seq_start) tj = true
      ∧ m = [tokT (i + 1), natToChars (ti.length - seq_start - 1), tokT (j + 1)])
    ∨ ((s.stock ≠ [] ∨ s.waste ≠ []) ∧ m = [tokDECK]) := by
  unfold available_moves at hm
  rw [List.mem_append, List.mem_append, List.mem_append] at hm
  rcases hm with ((h | h) | h) | h
  · -- waste block
    rcases hw : s.waste.getLast? with _ | c
    · rw [hw] at h; simp at h
    · rw [hw, List.mem_append] at h
      rcases h with h | h
      · by_cases hf : can_move_to_foundation s c = true
        · rw [if_pos hf] at h
          simp only [List.mem_singleton] at h
          exact Or.inl ⟨c, rfl, hf, h⟩
        · rw [if_neg hf] at h; simp at h
      · obtain ⟨⟨i, ti⟩, hit, hsome⟩ := List.mem_filterMap.mp h
        by_cases hc : can_move_to_tableau c ti = true
        · rw [if_pos hc] at hsome
          refine Or.inr (Or.inl ⟨c, i, ti, rfl, ?_, hc, (Option.some_injective _ hsome).symm⟩)
          rw [List.get?_eq_getElem?]
          exact (List.mem_enum_iff_getElem?).mp hit
        · rw [if_neg hc] at hsome; simp at hsome
  · -- tableau to foundation block
    obtain ⟨⟨i, ti⟩, hit, hsome⟩ := List.mem_filterMap.mp h
    rcases hlast : ti.getLast? with _ | ⟨c, f⟩
    · rw [hlast] at hsome; simp at hsome
    · rcases f with _ | _
      · rw [hlast] at hsome; simp at hsome
      · rw [hlast] at hsome
        by_cases hf : can_move_to_foundation s c = true
        · simp only [hf, if_true] at hsome
          refine Or.inr (Or.inr (Or.inl ⟨i, ti, c, ?_, hlast, hf,
            (Option.some_injective _ hsome).symm⟩))
          rw [List.get?_eq_getElem?]
          exact (List.mem_enum_iff_getElem?).mp hit
        · simp [hf] at hsome
  · -- tableau to tableau block
    obtain ⟨⟨i, ti⟩, hit, hmem⟩ := List.mem_flatMap.mp h
    obtain ⟨seq_start, hseq, hmem2⟩ := List.mem_flatMap.mp hmem
    obtain ⟨⟨j, tj⟩, hjt, hsome⟩ := List.mem_filterMap.mp hmem2
    dsimp only at hseq hsome
    rw [List.mem_range'_1] at hseq
    have hfus : (ti.findIdx fun x => x.2) ≤ ti.length :=
      List.findIdx_le_length (fun (x : Nat × Bool) => x.2)
    by_cases hcond : i ≠ j ∧ can_move_sequence (ti.drop seq_start) tj = true
    · rw [if_pos hcond] at hsome
      refine Or.inr (Or.inr (Or.inr (Or.inl ⟨i, ti, j, tj, seq_start, ?_, ?_,
        hcond.1, hseq.1, by omega, hcond.2, (Option.some_injective _ hsome).symm⟩)))
      · rw [List.get?_eq_getElem?]
        exact (List.mem_enum_iff_getElem?).mp hit
      · rw [List.get?_eq_getElem?]
        exact (List.mem_enum_iff_getElem?).mp hjt
    · rw [if_neg hcond] at hsome; simp at hsome
  · -- deck block
    by_cases hs : s.stock ≠ []
    · rw [if_pos hs] at h
      simp only [List.mem_singleton] at h
      exact Or.inr (Or.inr (Or.inr (Or.inr ⟨Or.inl hs, h⟩)))
    · rw [if_neg hs] at h
      by_cases hw : s.waste ≠ []
      · rw [if_pos hw] at h
        simp only [List.mem_singleton] at h
        exact Or.inr (Or.inr (Or.inr (Or.inr ⟨Or.inr hw, h⟩)))
      · rw [if_neg hw] at h; simp at h

theorem findIdx_append_all_false (p : (Nat × Bool) → Bool) :
    ∀ (d u : List (Nat × Bool)), (∀ x ∈ d, p x = false) →
      (d ++ u).findIdx p = d.length + u.findIdx p := by
  intro d
  induction d with
  | nil => intro u _; simp
  | cons x xs ih =>
    intro u hd
    rw [List.cons_append, List.findIdx_cons, hd x (by simp), cond_false,
      ih u (fun y hy => hd y (by simp [hy])), List.length_cons]
    omega

theorem findIdx_all_true (p : (Nat × Bool) → Bool) (u : List (Nat × Bool))
    (hu : ∀ x ∈ u, p x = true) : u.findIdx p = 0 := by
  cases u with
  | nil => rfl
  | cons x xs => rw [List.findIdx_cons, hu x (by simp), cond_true]

theorem faceDownPrefix_drop_faceUp (t : List (Nat × Bool))
    (hfd : FaceDownPart t) (k : Nat) (hk : (t.findIdx fun x => x.2) ≤ k) :
    ∀ x ∈ t.drop k, x.2 = true := by
  obtain ⟨d, u, rfl, hdown, hup⟩ := hfd
  rw [findIdx_append_all_false _ d u (fun x hx => by simp [hdown x hx]),
    findIdx_all_true _ u hup] at hk
  intro x hx
  have hkd : k = d.length + (k - d.length) := by omega
  rw [hkd, List.drop_append] at hx
  exact hup x (List.mem_of_mem_drop hx)

/-- C10: a three-token move produced by `available_moves` on a state whose
tableaus have their face-down cards as a contiguous prefix is a
tableau-sequence move `[T(i+1), str(count-1), T(j+1)]`; applying it removes
exactly the enumerated (face-up) suffix from the source tableau, appends it
in order to the destination tableau, flips the new source top if face-down,
and leaves stock, waste, foundations, `stock_cycles` and all other tableaus
unchanged. -/
theorem tab_sequence_move_spec (s : GameState) (m : Move)
    (h7 : s.tableaus.length = 7)
    (hm : m ∈ available_moves s) (hlen3 : m.length = 3)
    (hfd : ∀ t ∈ s.tableaus, FaceDownPart t) :
    ∃ i ti j tj seq_start s',
      s.tableaus.get? i = some ti ∧ s.tableaus.get? j = some tj ∧ i ≠ j
      ∧ seq_start < ti.length
      ∧ m = [tokT (i + 1), natToChars (ti.length - seq_start - 1), tokT (j + 1)]
      ∧ apply_move s m = some s'
      ∧ s'.stock = s.stock ∧ s'.waste = s.waste
      ∧ s'.foundations = s.foundations ∧ s'.stock_cycles = s.stock_cycles
      ∧ s'.tableaus.get? i = some (flipLastIfDown (ti.take seq_start))
      ∧ s'.tableaus.get? j = some (tj ++ ti.drop seq_start)
      ∧ (∀ k, k ≠ i → k ≠ j → s'.tableaus.get? k = s.tableaus.get? k)
      ∧ (∀ x ∈ ti.drop seq_start, x.2 = true) := by
  rcases mem_available_moves s m hm with ⟨c, _, _, hmeq⟩ | ⟨c, i, ti, _, _, _, hmeq⟩
    | ⟨i, ti, c, _, _, _, hmeq⟩ | ⟨i, ti, j, tj, seq_start, hti, htj, hij, hfus, hslen, hseq, hmeq⟩
    | ⟨_, hmeq⟩
  · rw [hmeq] at hlen3; simp at hlen3
  · rw [hmeq] at hlen3; simp at hlen3
  · rw [hmeq] at hlen3; simp at hlen3
  · have hi7 : i < 7 := by
      have := (List.get?_eq_some.mp hti).1
      omega
    have hj7 : j < 7 := by
      have := (List.get?_eq_some.mp htj).1
      omega
    have happ := apply_tab_sequence s i j seq_start ti tj hi7 hj7 hij hti htj hslen
    refine ⟨i, ti, j, tj, seq_start,
      { s with
        tableaus := (s.tableaus.set i (flipLastIfDown (ti.take seq_start))).set j
          (tj ++ ti.drop seq_start) },
      hti, htj, hij, hslen, hmeq, by rw [hmeq]; exact happ, rfl, rfl, rfl, rfl,
      ?_, ?_, ?_, ?_⟩
    · rw [List.get?_eq_getElem?, List.getElem?_set_ne (fun h => hij h.symm)]
      simp [List.getElem?_set_self, (List.get?_eq_some.mp hti).1]
    · have hjl : j < (s.tableaus.set i (flipLastIfDown (ti.take seq_start))).length := by
        rw [List.length_set]; exact (List.get?_eq_some.mp htj).1
      rw [List.get?_eq_getElem?]
      exact List.getElem?_set_self hjl
    · intro k hki hkj
      rw [List.get?_eq_getElem?, List.getElem?_set_ne (fun h => hkj h.symm),
        List.getElem?_set_ne (fun h => hki h.symm), List.get?_eq_getElem?]
    · exact fun x hx => faceDownPrefix_drop_faceUp ti
        (hfd ti (List.get?_mem hti)) seq_start hfus x hx
  · rw [hmeq] at hlen3; simp at hlen3

/-- Witness for C10 on `c10state` and its generated sequence move. -/
theorem tab_sequence_move_spec_witness :
    ∃ i ti j tj seq_start s',
      c10state.tableaus.get? i = some ti ∧ c10state.tableaus.get? j = some tj
      ∧ i ≠ j ∧ seq_start < ti.length
      ∧ [tokT 1, natToChars 0, tokT 2]
          = [tokT (i + 1), natToChars (ti.length - seq_start - 1), tokT (j + 1)]
      ∧ apply_move c10state [tokT 1, natToChars 0, tokT 2] = some s'
      ∧ s'.stock = c10state.stock ∧ s'.waste = c10state.waste
      ∧ s'.foundations = c10state.foundations
      ∧ s'.stock_cycles = c10state.stock_cycles
      ∧ s'.tableaus.get? i = some (flipLastIfDown (ti.take seq_start))
      ∧ s'.tableaus.get? j = some (tj ++ ti.drop seq_start)
      ∧ (∀ k, k ≠ i → k ≠ j → s'.tableaus.get? k = c10state.tableaus.get? k)
      ∧ (∀ x ∈ ti.drop seq_start, x.2 = true) :=
  tab_sequence_move_spec c10state [tokT 1, natToChars 0, tokT 2] (by decide)
    (by decide) (by decide)
    (by
      intro t ht
      simp only [c10state, List.mem_cons, List.not_mem_nil, or_false] at ht
      rcases ht with rfl | rfl | rfl | rfl | rfl | rfl | rfl
      · exact ⟨[(5, false)], [(30, true)], rfl, by decide, by decide⟩
      · exact ⟨[], [(35, true)], rfl, by decide, by decide⟩
      · exact ⟨[], [], rfl, by decide, by decide⟩
      · exact ⟨[], [], rfl, by decide, by decide⟩
      · exact ⟨[], [], rfl, by decide, by decide⟩
      · exact ⟨[], [], rfl, by decide, by decide⟩
      · exact ⟨[], [], rfl, by decide, by decide⟩)

theorem tableauCardIds_flipLastIfDown (t : List (Nat × Bool)) :
    tableauCardIds (flipLastIfDown t) = tableauCardIds t := by
  unfold flipLastIfDown
  rcases h : t.getLast? with _ | ⟨c, f⟩
  · rfl
  · rcases f with _ | _
    · have hsplit := List.dropLast_append_getLast? _ h
      calc tableauCardIds (t.dropLast ++ [(c, true)])
          = tableauCardIds t.dropLast ++ [c] := by simp [tableauCardIds]
        _ = tableauCardIds (t.dropLast ++ [(c, false)]) := by simp [tableauCardIds]
        _ = tableauCardIds t := by rw [hsplit]
    · rfl

theorem coe_eq_dropLast_add_last {α : Type} (l : List α) (c : α)
    (h : l.getLast? = some c) :
    (l : Multiset α) = (l.dropLast : Multiset α) + {c} := by
  conv_lhs => rw [← List.dropLast_append_getLast? _ h]
  rfl

theorem foundationCards_succ (suit : Nat) (v : Int) (h : -1 ≤ v) :
    foundationCards suit (v + 1)
      = foundationCards suit v + {4 * (v + 1).toNat + suit} := by
  rcases eq_or_lt_of_le h with h1 | h1
  · rw [← h1]
    norm_num [foundationCards]
    simp [List.range_succ]
  · have h0 : 0 ≤ v := by omega
    have htn : (v + 1).toNat = v.toNat + 1 := by omega
    unfold foundationCards
    rw [if_pos (by omega), if_pos h0, htn, List.range_succ]
    simp only [List.map_append, List.map_cons, List.map_nil]
    rfl

theorem foundBag_set : ∀ (l : List Int) (k i : Nat) (v x : Int),
    l.get? i = some v →
    foundBag k (l.set i x) + foundationCards (k + i) v
      = foundBag k l + foundationCards (k + i) x := by
  intro l
  induction l with
  | nil => intro k i v x h; simp at h
  | cons r rest ih =>
    intro k i v x h
    cases i with
    | zero =>
      simp only [List.get?] at h
      obtain rfl : r = v := (Option.some_injective _ h).symm ▸ rfl
      rw [Option.some_injective _ h] at *
      simp only [List.set, foundBag, Nat.add_zero]
      abel
    | succ i' =>
      simp only [List.get?] at h
      simp only [List.set, foundBag]
      have := ih (k + 1) i' v x h
      rw [show k + (i' + 1) = k + 1 + i' from by omega]
      calc foundationCards k r + foundBag (k + 1) (rest.set i' x)
            + foundationCards (k + 1 + i') v
          = foundationCards k r
            + (foundBag (k + 1) (rest.set i' x) + foundationCards (k + 1 + i') v) := by
            abel
        _ = foundationCards k r + (foundBag (k + 1) rest + foundationCards (k + 1 + i') x) := by
            rw [this]
        _ = foundationCards k r + foundBag (k + 1) rest + foundationCards (k + 1 + i') x := by
            abel

theorem tabBag_set : ∀ (ts : List (List (Nat × Bool))) (i : Nat)
    (t t' : List (Nat × Bool)), ts.get? i = some t →
    tabBag (ts.set i t') + (tableauCardIds t : Multiset Nat)
      = tabBag ts + (tableauCardIds t' : Multiset Nat) := by
  intro ts
  induction ts with
  | nil => intro i t t' h; simp at h
  | cons r rest ih =>
    intro i t t' h
    cases i with
    | zero =>
      simp only [List.get?] at h
      rw [Option.some_injective _ h] at *
      simp only [List.set, tabBag, List.map_cons, List.sum_cons]
      abel
    | succ i' =>
      simp only [List.get?] at h
      simp only [List.set, tabBag, List.map_cons, List.sum_cons]
      have := ih i' t t' h
      unfold tabBag at this
      calc (tableauCardIds r : Multiset Nat) + ((rest.set i' t').map fun u => (tableauCardIds u : Multiset Nat)).sum
            + (tableauCardIds t : Multiset Nat)
          = (tableauCardIds r : Multiset Nat)
            + (((rest.set i' t').map fun u => (tableauCardIds u : Multiset Nat)).sum
              + (tableauCardIds t : Multiset Nat)) := by abel
        _ = (tableauCardIds r : Multiset Nat)
            + ((rest.map fun u => (tableauCardIds u : Multiset Nat)).sum
              + (tableauCardIds t' : Multiset Nat)) := by rw [this]
        _ = (tableauCardIds r : Multiset Nat) + (rest.map fun u => (tableauCardIds u : Multiset Nat)).sum
            + (tableauCardIds t' : Multiset Nat) := by abel

theorem can_move_to_foundation_rank (s : GameState) (c : Nat) (v : Int)
    (hv : s.foundations.get? (card_suit c) = some v)
    (hcan : can_move_to_foundation s c = true) :
    (card_rank c : Int) = v + 1 := by
  unfold can_move_to_foundation at hcan
  have hgetD : s.foundations.getD (card_suit c) (-2) = v := by
    simp [List.getD_eq_getElem?_getD, ← List.get?_eq_getElem?, hv]
  rw [hgetD] at hcan
  exact_mod_cast of_decide_eq_true (by exact_mod_cast hcan)

theorem foundBag_gain (s : GameState) (c : Nat) (v : Int)
    (hv : s.foundations.get? (card_suit c) = some v)
    (hrank : (card_rank c : Int) = v + 1) :
    foundBag 0 (s.foundations.set (card_suit c) (v + 1))
      = foundBag 0 s.foundations + {c} := by
  have h1 := foundBag_set s.foundations 0 (card_suit c) v (v + 1) hv
  rw [zero_add] at h1
  have h2 := foundationCards_succ (card_suit c) v (by omega)
  have htn : (v + 1).toNat = card_rank c := by omega
  rw [htn, card_eq_rank_suit] at h2
  rw [h2, show foundBag 0 s.foundations + (foundationCards (card_suit c) v + {c})
      = (foundBag 0 s.foundations + {c}) + foundationCards (card_suit c) v from by abel]
    at h1
  exact add_right_cancel h1

theorem cardBag_step (s s' : GameState) (h4 : s.foundations.length = 4)
    (h7 : s.tableaus.length = 7) (m : Move) (hm : m ∈ available_moves s)
    (happ : apply_move s m = some s') :
    cardBag s' = cardBag s ∧ s'.foundations.length = 4
      ∧ s'.tableaus.length = 7 := by
  rcases mem_available_moves s m hm with ⟨c, hw, hcan, rfl⟩
    | ⟨c, i, ti, hw, hti, hcan, rfl⟩
    | ⟨i, ti, c, hti, hlast, hcan, rfl⟩
    | ⟨i, ti, j, tj, seq_start, hti, htj, hij, hfus, hslen, hseq, rfl⟩
    | ⟨hne, rfl⟩
  · -- waste to foundation
    have hsuit : card_suit c < s.foundations.length := by rw [h4]; exact card_suit_lt c
    have hv := List.get?_eq_get hsuit
    rw [apply_talon_foundation s c (card_suit c + 1) _ hw hv] at happ
    obtain rfl := (Option.some_injective _ happ).symm
    have hrank := can_move_to_foundation_rank s c _ hv hcan
    refine ⟨?_, by simp [List.length_set, h4], by simp [h7]⟩
    show (s.stock : Multiset Nat) + ↑s.waste.dropLast + foundBag 0 (s.foundations.set _ _)
        + tabBag s.tableaus = cardBag s
    rw [foundBag_gain s c _ hv hrank]
    unfold cardBag
    rw [coe_eq_dropLast_add_last s.waste c hw]
    abel
  · -- waste to tableau
    rw [apply_talon_tableau s c i ti hw hti] at happ
    obtain rfl := (Option.some_injective _ happ).symm
    refine ⟨?_, by simp [h4], by simp [List.length_set, h7]⟩
    show (s.stock : Multiset Nat) + ↑s.waste.dropLast + foundBag 0 s.foundations
        + tabBag (s.tableaus.set i (ti ++ [(c, true)])) = cardBag s
    have htb := tabBag_set s.tableaus i ti (ti ++ [(c, true)]) hti
    have hids : (tableauCardIds (ti ++ [(c, true)]) : Multiset Nat)
        = (tableauCardIds ti : Multiset Nat) + {c} := by
      unfold tableauCardIds
      rw [List.map_append]
      rfl
    rw [hids, show tabBag s.tableaus + ((tableauCardIds ti : Multiset Nat) + {c})
        = (tabBag s.tableaus + {c}) + (tableauCardIds ti : Multiset Nat) from by abel]
      at htb
    have htb2 := add_right_cancel htb
    unfold cardBag
    rw [htb2, coe_eq_dropLast_add_last s.waste c hw]
    abel
  · -- tableau to foundation
    have hsuit : card_suit c < s.foundations.length := by rw [h4]; exact card_suit_lt c
    have hv := List.get?_eq_get hsuit
    rw [apply_tab_foundation s i c true (card_suit c + 1) _ ti hti hlast hv] at happ
    obtain rfl := (Option.some_injective _ happ).symm
    have hrank := can_move_to_foundation_rank s c _ hv hcan
    refine ⟨?_, by simp [List.length_set, h4], by simp [List.length_set, h7]⟩
    show (s.stock : Multiset Nat) + ↑s.waste + foundBag 0 (s.foundations.set _ _)
        + tabBag (s.tableaus.set i (flipLastIfDown ti.dropLast)) = cardBag s
    rw [foundBag_gain s c _ hv hrank]
    have htb := tabBag_set s.tableaus i ti (flipLastIfDown ti.dropLast) hti
    rw [tableauCardIds_flipLastIfDown] at htb
    have hids : (tableauCardIds ti : Multiset Nat)
        = (tableauCardIds ti.dropLast : Multiset Nat) + {c} := by
      have hsplit : ti = ti.dropLast ++ [(c, true)] :=
        (List.dropLast_append_getLast? _ hlast).symm
      calc (tableauCardIds ti : Multiset Nat)
          = (tableauCardIds (ti.dropLast ++ [(c, true)]) : Multiset Nat) := by
            rw [← hsplit]
        _ = ((tableauCardIds ti.dropLast ++ [c] : List Nat) : Multiset Nat) := by
            unfold tableauCardIds
            simp
        _ = (tableauCardIds ti.dropLast : Multiset Nat) + {c} := rfl
    rw [hids, show tabBag (s.tableaus.set i (flipLastIfDown ti.dropLast))
          + ((tableauCardIds ti.dropLast : Multiset Nat) + {c})
          = (tabBag (s.tableaus.set i (flipLastIfDown ti.dropLast)) + {c})
            + (tableauCardIds ti.dropLast : Multiset Nat) from by abel] at htb
    have htb2 := add_right_cancel htb
    unfold cardBag
    rw [← htb2]
    abel
  · -- tableau sequence to tableau
    have hi7 : i < 7 := by have := (List.get?_eq_some.mp hti).1; omega
    have hj7 : j < 7 := by have := (List.get?_eq_some.mp htj).1; omega
    rw [apply_tab_sequence s i j seq_start ti tj hi7 hj7 hij hti htj hslen] at happ
    obtain rfl := (Option.some_injective _ happ).symm
    refine ⟨?_, by simp [h4], by simp [List.length_set, h7]⟩
    have htj' : (s.tableaus.set i (flipLastIfDown (ti.take seq_start))).get? j
        = some tj := by
      rw [List.get?_eq_getElem?, List.getElem?_set_ne hij, ← List.get?_eq_getElem?]
      exact htj
    have h1 := tabBag_set s.tableaus i ti (flipLastIfDown (ti.take seq_start)) hti
    rw [tableauCardIds_flipLastIfDown] at h1
    have h2 := tabBag_set (s.tableaus.set i (flipLastIfDown (ti.take seq_start)))
      j tj (tj ++ ti.drop seq_start) htj'
    have hidsapp : (tableauCardIds (tj ++ ti.drop seq_start) : Multiset Nat)
        = (tableauCardIds tj : Multiset Nat)
          + (tableauCardIds (ti.drop seq_start) : Multiset Nat) := by
      unfold tableauCardIds
      rw [List.map_append]
      rfl
    have hidssplit : (tableauCardIds ti : Multiset Nat)
        = (tableauCardIds (ti.take seq_start) : Multiset Nat)
          + (tableauCardIds (ti.drop seq_start) : Multiset Nat) := by
      calc (tableauCardIds ti : Multiset Nat)
          = (tableauCardIds (ti.take seq_start ++ ti.drop seq_start) : Multiset Nat) := by
            rw [List.take_append_drop]
        _ = (tableauCardIds (ti.take seq_start) : Multiset Nat)
            + (tableauCardIds (ti.drop seq_start) : Multiset Nat) := by
            unfold tableauCardIds
            rw [List.map_append]
            rfl
    rw [hidsapp, show tabBag (s.tableaus.set i (flipLastIfDown (ti.take seq_start)))
          + ((tableauCardIds tj : Multiset Nat)
            + (tableauCardIds (ti.drop seq_start) : Multiset Nat))
          = (tabBag (s.tableaus.set i (flipLastIfDown (ti.take seq_start)))
            + (tableauCardIds (ti.drop seq_start) : Multiset Nat))
            + (tableauCardIds tj : Multiset Nat) from by abel] at h2
    have h2c := add_right_cancel h2
    have key : tabBag ((s.tableaus.set i (flipLastIfDown (ti.take seq_start))).set j
          (tj ++ ti.drop seq_start)) + (tableauCardIds ti : Multiset Nat)
        = tabBag s.tableaus + (tableauCardIds ti : Multiset Nat) := by
      calc tabBag ((s.tableaus.set i (flipLastIfDown (ti.take seq_start))).set j
            (tj ++ ti.drop seq_start)) + (tableauCardIds ti : Multiset Nat)
          = (tabBag (s.tableaus.set i (flipLastIfDown (ti.take seq_start)))
              + (tableauCardIds (ti.drop seq_start) : Multiset Nat))
            + (tableauCardIds ti : Multiset Nat) := by rw [h2c]
        _ = (tabBag (s.tableaus.set i (flipLastIfDown (ti.take seq_start)))
              + (tableauCardIds ti : Multiset Nat))
            + (tableauCardIds (ti.drop seq_start) : Multiset Nat) := by abel
        _ = (tabBag s.tableaus + (tableauCardIds (ti.take seq_start) : Multiset Nat))
            + (tableauCardIds (ti.drop seq_start) : Multiset Nat) := by rw [h1]
        _ = tabBag s.tableaus + ((tableauCardIds (ti.take seq_start) : Multiset Nat)
            + (tableauCardIds (ti.drop seq_start) : Multiset Nat)) := by abel
        _ = tabBag s.tableaus + (tableauCardIds ti : Multiset Nat) := by
            rw [← hidssplit]
    have hC := add_right_cancel key
    unfold cardBag
    rw [hC]
  · -- deck draw or recycle
    rw [apply_deck_eq] at happ
    obtain rfl := (Option.some_injective _ happ).symm
    rcases hst : s.stock.getLast? with _ | c
    · have hse : s.stock = [] := List.getLast?_eq_none_iff.mp hst
      by_cases hwe : s.waste ≠ []
      · simp only [applyDeck, hst, if_pos hwe]
        refine ⟨?_, h4, h7⟩
        unfold cardBag
        dsimp only
        rw [Multiset.coe_reverse, hse]
        show (s.waste : Multiset Nat) + ↑([] : List Nat) + foundBag 0 s.foundations
            + tabBag s.tableaus
          = ↑([] : List Nat) + ↑s.waste + foundBag 0 s.foundations + tabBag s.tableaus
        abel
      · simp only [applyDeck, hst, if_neg hwe]
        exact ⟨trivial, h4, h7⟩
    · simp only [applyDeck, hst]
      refine ⟨?_, h4, h7⟩
      unfold cardBag
      dsimp only
      rw [coe_eq_dropLast_add_last s.stock c hst,
        show ((s.waste ++ [c] : List Nat) : Multiset Nat) = ↑s.waste + {c} from rfl]
      abel

/-- C2: from a valid initial state (4 foundation slots, 7 tableaus, each of
the 52 card ids accounted for exactly once across stock, waste, foundations
and tableaus), every state reachable by applying moves produced by
`available_moves` accounts for exactly the card ids `{0,…,51}`, each once. -/
theorem card_conservation (s0 : GameState) (hvalid : ValidInit s0)
    (s : GameState) (hreach : Reachable s0 s) :
    cardBag s = Multiset.range 52 := by
  suffices h : s.foundations.length = 4 ∧ s.tableaus.length = 7
      ∧ cardBag s = Multiset.range 52 from h.2.2
  induction hreach with
  | refl => exact hvalid
  | step h1 h2 h3 ih =>
    obtain ⟨ih4, ih7, ihbag⟩ := ih
    obtain ⟨hbag, h4, h7⟩ := cardBag_step _ _ ih4 ih7 _ h2 h3
    exact ⟨h4, h7, by rw [hbag, ihbag]⟩

/-- Witness for C2: the 52-card deal `c2state` after one draw still accounts
for every card exactly once. -/
theorem card_conservation_witness : cardBag (applyDeck c2state) = Multiset.range 52 :=
  card_conservation c2state ⟨rfl, rfl, by decide⟩ (applyDeck c2state)
    (Reachable.step Reachable.refl (by decide) (apply_deck_eq c2state))

theorem can_move_to_tableau_elim (c : Nat) (t : List (Nat × Bool))
    (h : can_move_to_tableau c t = true) :
    (t.getLast? = none ∧ card_rank c = 12)
    ∨ ∃ top, t.getLast? = some (top, true) ∧ canStack c top = true := by
  unfold can_move_to_tableau at h
  rcases hl : t.getLast? with _ | ⟨top, f⟩ <;> rw [hl] at h
  · left
    exact ⟨rfl, by simpa using h⟩
  · rcases f with _ | _
    · simp at h
    · right
      refine ⟨top, rfl, ?_⟩
      simpa [canStack, isBlackCard] using h

theorem tabInv_nil : TabInv [] :=
  ⟨[], [], rfl, by simp, by simp, List.chain'_nil⟩

theorem tabInv_all_down_flip (d : List (Nat × Bool))
    (hd : ∀ x ∈ d, x.2 = false) : TabInv (flipLastIfDown d) := by
  unfold flipLastIfDown
  rcases hl : d.getLast? with _ | ⟨c, f⟩
  · exact ⟨d, [], by simp, hd, by simp, List.chain'_nil⟩
  · have hf : f = false := hd _ (List.mem_of_mem_getLast? hl)
    subst hf
    exact ⟨d.dropLast, [(c, true)], rfl,
      fun x hx => hd x (List.dropLast_subset _ hx), by simp, List.chain'_singleton _⟩

theorem tabInv_faceDownPart (t : List (Nat × Bool)) (h : TabInv t) :
    FaceDownPart t := by
  obtain ⟨d, u, rfl, hd, hu, _⟩ := h
  exact ⟨d, u, rfl, hd, hu⟩

theorem tabInv_findIdx (t : List (Nat × Bool)) (d u : List (Nat × Bool))
    (heq : t = d ++ u) (hd : ∀ x ∈ d, x.2 = false) (hu : ∀ x ∈ u, x.2 = true) :
    (t.findIdx fun x => x.2) = d.length := by
  subst heq
  rw [findIdx_append_all_false _ d u (fun x hx => by simp [hd x hx]),
    findIdx_all_true _ u hu]
  omega

theorem tabInv_append_card (t : List (Nat × Bool)) (c : Nat)
    (hinv : TabInv t) (hcan : can_move_to_tableau c t = true) :
    TabInv (t ++ [(c, true)]) := by
  obtain ⟨d, u, rfl, hd, hu, hch⟩ := hinv
  rcases can_move_to_tableau_elim c _ hcan with ⟨hnone, _⟩ | ⟨top, hsome, hstack⟩
  · obtain ⟨rfl, rfl⟩ := List.append_eq_nil.mp (List.getLast?_eq_none_iff.mp hnone)
    exact ⟨[], [(c, true)], rfl, by simp, by simp, List.chain'_singleton _⟩
  · have hune : u ≠ [] := by
      intro hu0
      subst hu0
      rw [List.append_nil] at hsome
      have := hd _ (List.mem_of_mem_getLast? hsome)
      simp at this
    rw [List.getLast?_append_of_ne_nil d hune] at hsome
    refine ⟨d, u ++ [(c, true)], by rw [List.append_assoc], hd, ?_, ?_⟩
    · intro x hx
      rcases List.mem_append.mp hx with hx | hx
      · exact hu x hx
      · simp at hx
        rw [hx]
    · rw [List.chain'_append]
      refine ⟨hch, List.chain'_singleton _, ?_⟩
      intro x hx y hy
      rw [hsome] at hx
      have hx2 : x = (top, true) := by simpa [eq_comm, Option.mem_def] using hx
      have hy2 : y = (c, true) := by simpa [eq_comm, Option.mem_def] using hy
      rw [hx2, hy2]
      exact hstack

theorem tabInv_pop_flip (t : List (Nat × Bool)) (hinv : TabInv t) :
    TabInv (flipLastIfDown t.dropLast) := by
  obtain ⟨d, u, rfl, hd, hu, hch⟩ := hinv
  by_cases hune : u = []
  · subst hune
    rw [List.append_nil]
    exact tabInv_all_down_flip _ fun x hx => hd x (List.dropLast_subset _ hx)
  · rw [List.dropLast_append_of_ne_nil d hune]
    by_cases hdlne : u.dropLast = []
    · rw [hdlne, List.append_nil]
      exact tabInv_all_down_flip d hd
    · obtain ⟨y, hy⟩ : ∃ y, u.dropLast.getLast? = some y :=
        Option.ne_none_iff_exists'.mp
          (fun h0 => hdlne (List.getLast?_eq_none_iff.mp h0))
      have hyu : y.2 = true :=
        hu y (List.dropLast_subset _ (List.mem_of_mem_getLast? hy))
      have hflip : flipLastIfDown (d ++ u.dropLast) = d ++ u.dropLast := by
        unfold flipLastIfDown
        rw [List.getLast?_append_of_ne_nil d hdlne, hy]
        obtain ⟨cy, fy⟩ := y
        simp only at hyu
        rw [hyu]
      rw [hflip]
      refine ⟨d, u.dropLast, rfl, hd,
        fun x hx => hu x (List.dropLast_subset _ hx), ?_⟩
      have hsplit : u = u.dropLast ++ [u.getLast hune] :=
        (List.dropLast_append_getLast hune).symm
      rw [hsplit] at hch
      exact hch.left_of_append

theorem tabInv_take_flip (ti : List (Nat × Bool)) (seq_start : Nat)
    (hinv : TabInv ti) (hfus : (ti.findIdx fun x => x.2) ≤ seq_start) :
    TabInv (flipLastIfDown (ti.take seq_start)) := by
  obtain ⟨d, u, rfl, hd, hu, hch⟩ := hinv
  have hfi : ((d ++ u).findIdx fun x => x.2) = d.length :=
    tabInv_findIdx _ d u rfl hd hu
  rw [hfi] at hfus
  rw [show seq_start = d.length + (seq_start - d.length) from by omega,
    List.take_append]
  by_cases htkne : u.take (seq_start - d.length) = []
  · rw [htkne, List.append_nil]
    exact tabInv_all_down_flip d hd
  · obtain ⟨y, hy⟩ : ∃ y, (u.take (seq_start - d.length)).getLast? = some y :=
      Option.ne_none_iff_exists'.mp
        (fun h0 => htkne (List.getLast?_eq_none_iff.mp h0))
    have hyu : y.2 = true :=
      hu y (List.mem_of_mem_take (List.mem_of_mem_getLast? hy))
    have hflip : flipLastIfDown (d ++ u.take (seq_start - d.length))
        = d ++ u.take (seq_start - d.length) := by
      unfold flipLastIfDown
      rw [List.getLast?_append_of_ne_nil d htkne, hy]
      obtain ⟨cy, fy⟩ := y
      simp only at hyu
      rw [hyu]
    rw [hflip]
    refine ⟨d, u.take (seq_start - d.length), rfl, hd,
      fun x hx => hu x (List.mem_of_mem_take hx), ?_⟩
    have hsplit : u = u.take (seq_start - d.length) ++ u.drop (seq_start - d.length) :=
      (List.take_append_drop _ u).symm
    rw [hsplit] at hch
    exact hch.left_of_append

theorem tabInv_drop_chain (ti : List (Nat × Bool)) (seq_start : Nat)
    (hinv : TabInv ti) (hfus : (ti.findIdx fun x => x.2) ≤ seq_start) :
    List.Chain' RunRel (ti.drop seq_start) := by
  obtain ⟨d, u, rfl, hd, hu, hch⟩ := hinv
  have hfi : ((d ++ u).findIdx fun x => x.2) = d.length :=
    tabInv_findIdx _ d u rfl hd hu
  rw [hfi] at hfus
  rw [show seq_start = d.length + (seq_start - d.length) from by omega,
    List.drop_append]
  have hsplit : u = u.take (seq_start - d.length) ++ u.drop (seq_start - d.length) :=
    (List.take_append_drop _ u).symm
  rw [hsplit] at hch
  exact hch.right_of_append

theorem tabInv_dest_append (tj seqq : List (Nat × Bool))
    (hinv : TabInv tj) (hcan : can_move_sequence seqq tj = true)
    (hup : ∀ x ∈ seqq, x.2 = true) (hchs : List.Chain' RunRel seqq) :
    TabInv (tj ++ seqq) := by
  obtain ⟨dj, uj, rfl, hdj, huj, hchj⟩ := hinv
  obtain ⟨c0, b0, rest, rfl⟩ : ∃ c0 b0 rest, seqq = (c0, b0) :: rest := by
    rcases seqq with _ | ⟨⟨c0, b0⟩, rest⟩
    · simp [can_move_sequence] at hcan
    · exact ⟨c0, b0, rest, rfl⟩
  have hcant : can_move_to_tableau c0 (dj ++ uj) = true := by
    simpa [can_move_sequence] using hcan
  rcases can_move_to_tableau_elim c0 _ hcant with ⟨hnone, _⟩ | ⟨top, hsome, hstack⟩
  · obtain ⟨rfl, rfl⟩ := List.append_eq_nil.mp (List.getLast?_eq_none_iff.mp hnone)
    exact ⟨[], (c0, b0) :: rest, rfl, by simp, hup, hchs⟩
  · have hune : uj ≠ [] := by
      intro hu0
      subst hu0
      rw [List.append_nil] at hsome
      have := hdj _ (List.mem_of_mem_getLast? hsome)
      simp at this
    rw [List.getLast?_append_of_ne_nil dj hune] at hsome
    refine ⟨dj, uj ++ (c0, b0) :: rest, by rw [List.append_assoc], hdj, ?_, ?_⟩
    · intro x hx
      rcases List.mem_append.mp hx with hx | hx
      · exact huj x hx
      · exact hup x hx
    · rw [List.chain'_append]
      refine ⟨hchj, hchs, ?_⟩
      intro x hx y hy
      rw [hsome] at hx
      have hx2 : x = (top, true) := by simpa [eq_comm, Option.mem_def] using hx
      have hy2 : y = (c0, b0) := by simpa [eq_comm, Option.mem_def] using hy
      rw [hx2, hy2]
      exact hstack

theorem mem_set_elim {α : Type} : ∀ (l : List α) (i : Nat) (x t : α),
    t ∈ l.set i x → t = x ∨ t ∈ l := by
  intro l
  induction l with
  | nil => intro i x t ht; simp at ht
  | cons r rest ih =>
    intro i x t ht
    cases i with
    | zero =>
      rcases List.mem_cons.mp ht with h | h
      · exact Or.inl h
      · exact Or.inr (List.mem_cons.mpr (Or.inr h))
    | succ i' =>
      rcases List.mem_cons.mp ht with h | h
      · exact Or.inr (List.mem_cons.mpr (Or.inl h))
      · rcases ih i' x t h with h2 | h2
        · exact Or.inl h2
        · exact Or.inr (List.mem_cons.mpr (Or.inr h2))

/-- C3: every move produced by `available_moves`, applied to a (well-shaped)
state whose tableaus all satisfy the tableau invariant — face-down cards a
contiguous prefix, face-up cards a contiguous suffix forming a strictly
descending alternating-color run — yields a state whose tableaus all satisfy
the invariant again; in particular the sequence-move legality check, which
validates only the bottom card of the moved run, never produces a tableau
whose face-up suffix is not a valid run. -/
theorem tableau_invariant_preserved (s : GameState)
    (h4 : s.foundations.length = 4) (h7 : s.tableaus.length = 7)
    (hinv : AllTabInv s) (m : Move) (hm : m ∈ available_moves s)
    (s' : GameState) (happ : apply_move s m = some s') :
    AllTabInv s' := by
  rcases mem_available_moves s m hm with ⟨c, hw, hcan, rfl⟩
    | ⟨c, i, ti, hw, hti, hcan, rfl⟩
    | ⟨i, ti, c, hti, hlast, hcan, rfl⟩
    | ⟨i, ti, j, tj, seq_start, hti, htj, hij, hfus, hslen, hseq, rfl⟩
    | ⟨hne, rfl⟩
  · -- waste to foundation: tableaus unchanged
    have hsuit : card_suit c < s.foundations.length := by rw [h4]; exact card_suit_lt c
    rw [apply_talon_foundation s c (card_suit c + 1) _ hw (List.get?_eq_get hsuit)] at happ
    obtain rfl := (Option.some_injective _ happ).symm
    intro t ht
    exact hinv t ht
  · -- waste to tableau
    rw [apply_talon_tableau s c i ti hw hti] at happ
    obtain rfl := (Option.some_injective _ happ).symm
    intro t ht
    rcases mem_set_elim _ _ _ _ ht with rfl | ht2
    · exact tabInv_append_card ti c (hinv ti (List.get?_mem hti)) hcan
    · exact hinv t ht2
  · -- tableau to foundation
    have hsuit : card_suit c < s.foundations.length := by rw [h4]; exact card_suit_lt c
    rw [apply_tab_foundation s i c true (card_suit c + 1) _ ti hti hlast
      (List.get?_eq_get hsuit)] at happ
    obtain rfl := (Option.some_injective _ happ).symm
    intro t ht
    rcases mem_set_elim _ _ _ _ ht with rfl | ht2
    · exact tabInv_pop_flip ti (hinv ti (List.get?_mem hti))
    · exact hinv t ht2
  · -- tableau sequence to tableau
    have hi7 : i < 7 := by have := (List.get?_eq_some.mp hti).1; omega
    have hj7 : j < 7 := by have := (List.get?_eq_some.mp htj).1; omega
    rw [apply_tab_sequence s i j seq_start ti tj hi7 hj7 hij hti htj hslen] at happ
    obtain rfl := (Option.some_injective _ happ).symm
    intro t ht
    rcases mem_set_elim _ _ _ _ ht with rfl | ht2
    · exact tabInv_dest_append tj (ti.drop seq_start) (hinv tj (List.get?_mem htj)) hseq
        (faceDownPrefix_drop_faceUp ti
          (tabInv_faceDownPart ti (hinv ti (List.get?_mem hti))) seq_start hfus)
        (tabInv_drop_chain ti seq_start (hinv ti (List.get?_mem hti)) hfus)
    · rcases mem_set_elim _ _ _ _ ht2 with rfl | ht3
      · exact tabInv_take_flip ti seq_start (hinv ti (List.get?_mem hti)) hfus
      · exact hinv t ht3
  · -- deck: tableaus unchanged
    rw [apply_deck_eq] at happ
    obtain rfl := (Option.some_injective _ happ).symm
    have htab : (applyDeck s).tableaus = s.tableaus := by
      unfold applyDeck
      rcases s.stock.getLast? with _ | c
      · by_cases hwe : s.waste ≠ [] <;> simp [hwe]
      · rfl
    intro t ht
    rw [htab] at ht
    exact hinv t ht

/-- Witness for C3: the sequence move on `c10state` preserves the tableau
invariant. -/
theorem tableau_invariant_preserved_witness :
    AllTabInv ((apply_move c10state [tokT 1, natToChars 0, tokT 2]).getD c10state) :=
  tableau_invariant_preserved c10state rfl rfl
    (by
      intro t ht
      simp only [c10state, List.mem_cons, List.not_mem_nil, or_false] at ht
      rcases ht with rfl | rfl | rfl | rfl | rfl | rfl | rfl
      · exact ⟨[(5, false)], [(30, true)], rfl, by decide, by decide,
          List.chain'_singleton _⟩
      · exact ⟨[], [(35, true)], rfl, by decide, by decide, List.chain'_singleton _⟩
      · exact ⟨[], [], rfl, by decide, by decide, List.chain'_nil⟩
      · exact ⟨[], [], rfl, by decide, by decide, List.chain'_nil⟩
      · exact ⟨[], [], rfl, by decide, by decide, List.chain'_nil⟩
      · exact ⟨[], [], rfl, by decide, by decide, List.chain'_nil⟩
      · exact ⟨[], [], rfl, by decide, by decide, List.chain'_nil⟩)
    [tokT 1, natToChars 0, tokT 2] (by decide) _ rfl

/-- C9 counterexample: a clearly malformed pile description — its only card
id, 99, is invalid, so conversion yields a state with no cards at all — is
*not* rejected: `from_reader_state` returns a state (not `None`) and the call
site's guard therefore runs the search on it. -/
theorem from_reader_state_accepts_garbage :
    from_reader_state c9bad = ConvResult.state c9empty
      ∧ search_invoked (from_reader_state c9bad) = true := by
  constructor
  · rfl
  · rfl

/-- C9 amended: `from_reader_state` returns `None` exactly when the reader
state itself is absent/falsy — only then (or on an exception) is the search
not invoked; any present pile description, however malformed, produces a
`GameState` and the search runs on it. -/
theorem from_reader_state_none_iff (rs : ReaderState) :
    from_reader_state none = ConvResult.noState
    ∧ search_invoked ConvResult.noState = false
    ∧ search_invoked ConvResult.exc = false
    ∧ from_reader_state (some rs) ≠ ConvResult.noState
    ∧ (∀ g : GameState, from_reader_state (some rs) = ConvResult.state g →
        search_invoked (from_reader_state (some rs)) = true) := by
  refine ⟨rfl, rfl, rfl, ?_, ?_⟩
  · unfold from_reader_state
    rcases h : rs.piles.foldlM convPile ([], [], [-1, -1, -1, -1],
        [[], [], [], [], [], [], []]) with _ | ⟨st, wa, fo, ta⟩ <;> simp [h]
  · intro g hg
    rw [hg]
    rfl

/-- Witness for C9 amended: on the concrete single-pile reader state whose
only card id is 99, the conversion does not return `None` and the search
guard fires. -/
theorem from_reader_state_none_iff_witness :
    from_reader_state (some ⟨[⟨some 0, some [⟨some 99, false⟩]⟩]⟩) ≠ ConvResult.noState
    ∧ search_invoked (from_reader_state (some ⟨[⟨some 0, some [⟨some 99, false⟩]⟩]⟩)) = true :=
  ⟨(from_reader_state_none_iff ⟨[⟨some 0, some [⟨some 99, false⟩]⟩]⟩).2.2.2.1,
   (from_reader_state_none_iff ⟨[⟨some 0, some [⟨some 99, false⟩]⟩]⟩).2.2.2.2
     c9empty (by decide)⟩

/-- C6 counterexample: on the recycling-only deal the recycled state is
*never* "identical to one already seen" — its key differs (stock_cycles is
part of the key) — and indeed the whole budget-6 run performs zero
visited-set skips while ending with a nonempty frontier: pruning is not what
stops the loop. -/
theorem solve_recycling_no_prune :
    (apply_move d6state [tokDECK]).map state_key ≠ some (state_key d6state)
      ∧ runSummary c6run = some (0, 6, false) := by
  constructor
  · decide
  · rfl

/-- C6 amended: on a deal whose only legal move is drawing/recycling the
stock, the search terminates within the iteration budget because the budget
bounds the number of expansions — with budgets 6 and 12 the run ends with
exactly that many expansions, zero visited-set skips (no state is ever
pruned, since `stock_cycles` makes every recycled key fresh) and a nonempty
frontier. -/
theorem solve_recycling_terminates_by_budget :
    runSummary c6run = some (0, 6, false)
      ∧ runSummary c6bigrun = some (0, 12, false) := by
  constructor
  · rfl
  · rfl

theorem bwRepCb_append : ∀ (l l2 : List Ev), bwRepCb l = true → bwRepCb l2 = true →
    bwRepCb (l ++ l2) = true := by
  intro l
  induction l with
  | nil => intro l2 _ h2; simpa
  | cons e rest ih =>
    intro l2 h1 h2
    cases e with
    | bwRep i =>
      rcases rest with _ | ⟨f, rest2⟩
      · simp [bwRepCb] at h1
      · cases f with
        | cb j budget b bw m =>
          rw [bwRepCb, Bool.and_eq_true] at h1
          obtain ⟨hm, hr⟩ := h1
          rw [List.cons_append, List.cons_append, bwRepCb, Bool.and_eq_true]
          exact ⟨hm, by rw [← List.cons_append]; exact ih l2 hr h2⟩
        | bwRep k => simp [bwRepCb] at h1
        | bpRep k => simp [bwRepCb] at h1
    | cb j budget b bw m =>
      rw [List.cons_append, bwRepCb]
      exact ih l2 (by rw [bwRepCb] at h1; exact h1) h2
    | bpRep k =>
      rw [List.cons_append, bwRepCb]
      exact ih l2 (by rw [bwRepCb] at h1; exact h1) h2

theorem goodEvents_append (l l2 : List Ev) (h1 : goodEvents l)
    (h2 : l2.all cbOk = true) (h3 : bwRepCb l2 = true) :
    goodEvents (l ++ l2) := by
  refine ⟨?_, bwRepCb_append l l2 h1.2 h3⟩
  rw [List.all_append, h1.1, h2]
  rfl

theorem goodEvents_cb_periodic (l : List Ev) (h : goodEvents l)
    (it budget : Nat) (hit : it % 100 = 0) (b : SolutionState)
    (bw : Option SolutionState) (m : Msg) :
    goodEvents (l ++ [Ev.cb it budget b bw m]) := by
  refine goodEvents_append l _ h ?_ rfl
  simp [cbOk, hit]

theorem goodEvents_cb_stopped (l : List Ev) (h : goodEvents l)
    (it budget : Nat) (b : SolutionState) (bw : Option SolutionState) :
    goodEvents (l ++ [Ev.cb it budget b bw Msg.stoppedByUser]) := by
  refine goodEvents_append l _ h ?_ rfl
  simp [cbOk]

theorem goodEvents_cb_completed (l : List Ev) (h : goodEvents l)
    (it budget n : Nat) (b : SolutionState) (bw : Option SolutionState) :
    goodEvents (l ++ [Ev.cb it budget b bw (Msg.completedMsg n)]) := by
  refine goodEvents_append l _ h ?_ rfl
  simp [cbOk]

theorem goodEvents_cb_best (l : List Ev) (h : goodEvents l)
    (it budget n : Nat) (b : SolutionState) (bw : Option SolutionState) :
    goodEvents (l ++ [Ev.cb it budget b bw (Msg.bestMsg n)]) := by
  refine goodEvents_append l _ h ?_ rfl
  simp [cbOk]

theorem goodEvents_bpRep (l : List Ev) (h : goodEvents l) (it : Nat) :
    goodEvents (l ++ [Ev.bpRep it]) := by
  refine goodEvents_append l _ h ?_ rfl
  simp [cbOk]

theorem goodEvents_bwRep_cb (l : List Ev) (h : goodEvents l)
    (it budget n : Nat) (b : SolutionState) (bw : Option SolutionState) :
    goodEvents (l ++ [Ev.bwRep it, Ev.cb it budget b bw (Msg.foundMsg n)]) := by
  refine goodEvents_append l _ h ?_ ?_
  · simp [cbOk]
  · simp [bwRepCb]

theorem updateBest_popped (st2 : SolveState) (e : Entry) :
    (updateBest st2 e).popped = st2.popped := by
  unfold updateBest
  by_cases h : st2.best.foundation_count < foundation_count e.state <;> simp [h]

theorem updateBest_bw (st2 : SolveState) (e : Entry) :
    (updateBest st2 e).bw = st2.bw := by
  unfold updateBest
  by_cases h : st2.best.foundation_count < foundation_count e.state <;> simp [h]

theorem updateWinning_popped (budget : Nat) (st3 : SolveState) (e : Entry) :
    (updateWinning budget st3 e).popped = st3.popped := by
  unfold updateWinning
  by_cases h : is_won e.state = true
  · rcases hb : st3.bw with _ | b
    · simp [h, hb]
    · by_cases hl : e.path.length < b.moves.length <;> simp [h, hb, hl]
  · simp [h]

theorem updateWinning_best (budget : Nat) (st3 : SolveState) (e : Entry) :
    (updateWinning budget st3 e).best = st3.best := by
  unfold updateWinning
  by_cases h : is_won e.state = true
  · rcases hb : st3.bw with _ | b
    · simp [h, hb]
    · by_cases hl : e.path.length < b.moves.length <;> simp [h, hb, hl]
  · simp [h]

theorem invBest_congr (st st' : SolveState) (hp : st'.popped = st.popped)
    (hb : st'.best = st.best) (h : InvBest st) : InvBest st' := by
  unfold InvBest at *
  rw [hp, hb]
  exact h

theorem invBW_congr (st st' : SolveState) (hp : st'.popped = st.popped)
    (hb : st'.bw = st.bw) (h : InvBW st) : InvBW st' := by
  unfold InvBW at *
  rw [hp, hb]
  exact h

theorem invBest_step (st1 : SolveState) (e : Entry) (heap' : List Entry)
    (h : InvBest st1) : InvBest (updateBest (popRecord st1 e heap') e) := by
  obtain ⟨h1, h2⟩ := h
  unfold InvBest updateBest popRecord
  by_cases hfc : st1.best.foundation_count < foundation_count e.state
  · simp only [hfc, if_true]
    refine ⟨?_, Or.inr ⟨(e.state, e.path), by simp, rfl, rfl⟩⟩
    intro q hq
    rcases List.mem_append.mp hq with hq | hq
    · exact le_of_lt (lt_of_le_of_lt (h1 q hq) hfc)
    · simp at hq
      rw [hq]
  · simp only [hfc, if_false]
    refine ⟨?_, ?_⟩
    · intro q hq
      rcases List.mem_append.mp hq with hq | hq
      · exact h1 q hq
      · simp at hq
        rw [hq]
        exact le_of_not_lt hfc
    · rcases h2 with h2 | ⟨q, hq, hfcq, hmv⟩
      · exact Or.inl h2
      · exact Or.inr ⟨q, List.mem_append.mpr (Or.inl hq), hfcq, hmv⟩

theorem invBW_step (budget : Nat) (st1 : SolveState) (e : Entry)
    (heap' : List Entry) (hbw : InvBW st1) :
    InvBW (updateWinning budget (updateBest (popRecord st1 e heap') e) e) := by
  have hst3p : (updateBest (popRecord st1 e heap') e).popped
      = st1.popped ++ [(e.state, e.path)] := by
    rw [updateBest_popped]
    rfl
  have hst3bw : (updateBest (popRecord st1 e heap') e).bw = st1.bw := by
    rw [updateBest_bw]
    rfl
  unfold InvBW at hbw ⊢
  unfold updateWinning
  by_cases hwon : is_won e.state = true
  · rw [if_pos hwon, hst3bw]
    rcases hb : st1.bw with _ | b
    · rw [hb] at hbw
      simp only [hst3p]
      refine ⟨trivial, ⟨(e.state, e.path), by simp, hwon, rfl⟩, ?_⟩
      intro q hq hqwon
      rcases List.mem_append.mp hq with hq | hq
      · exact absurd hqwon (by rw [hbw q hq]; simp)
      · simp at hq
        rw [hq]
    · rw [hb] at hbw
      obtain ⟨hb52, ⟨q0, hq0, hq0w, hq0m⟩, hbmin⟩ := hbw
      dsimp only
      by_cases hlen : e.path.length < b.moves.length
      · rw [if_pos hlen]
        simp only [hst3p]
        refine ⟨trivial, ⟨(e.state, e.path), by simp, hwon, rfl⟩, ?_⟩
        intro q hq hqwon
        rcases List.mem_append.mp hq with hq | hq
        · exact le_of_lt (lt_of_lt_of_le hlen (hbmin q hq hqwon))
        · simp at hq
          rw [hq]
      · rw [if_neg hlen, hst3bw, hb]
        simp only [hst3p]
        refine ⟨hb52, ⟨q0, List.mem_append.mpr (Or.inl hq0), hq0w, hq0m⟩, ?_⟩
        intro q hq hqwon
        rcases List.mem_append.mp hq with hq | hq
        · exact hbmin q hq hqwon
        · simp at hq
          rw [hq]
          exact le_of_not_lt hlen
  · rw [if_neg hwon, hst3bw]
    rcases hb : st1.bw with _ | b
    · rw [hb] at hbw
      simp only [hst3p]
      intro q hq
      rcases List.mem_append.mp hq with hq | hq
      · exact hbw q hq
      · simp at hq
        rw [hq]
        exact Bool.not_eq_true _ ▸ eq_false_of_ne_true hwon
    · rw [hb] at hbw
      obtain ⟨hb52, ⟨q0, hq0, hq0w, hq0m⟩, hbmin⟩ := hbw
      simp only [hst3p]
      refine ⟨hb52, ⟨q0, List.mem_append.mpr (Or.inl hq0), hq0w, hq0m⟩, ?_⟩
      intro q hq hqwon
      rcases List.mem_append.mp hq with hq | hq
      · exact hbmin q hq hqwon
      · simp at hq
        rw [hq] at hqwon
        exact absurd hqwon hwon

theorem goodEvents_solveStep (budget : Nat) (st1 : SolveState) (e : Entry)
    (heap' : List Entry) (h : goodEvents st1.events) :
    goodEvents (updateWinning budget (updateBest (popRecord st1 e heap') e) e).events := by
  have h3 : goodEvents (updateBest (popRecord st1 e heap') e).events := by
    unfold updateBest popRecord
    by_cases hfc : st1.best.foundation_count < foundation_count e.state
    · simp only [hfc, if_true]
      exact goodEvents_bpRep _ h _
    · simp only [hfc, if_false]
      exact h
  unfold updateWinning
  by_cases hwon : is_won e.state = true
  · rw [if_pos hwon]
    rcases hb : (updateBest (popRecord st1 e heap') e).bw with _ | b
    · exact goodEvents_bwRep_cb _ h3 _ _ _ _ _
    · dsimp only
      by_cases hlen : e.path.length < b.moves.length
      · rw [if_pos hlen]
        exact goodEvents_bwRep_cb _ h3 _ _ _ _ _
      · rw [if_neg hlen]
        exact h3

  · rw [if_neg hwon]
    exact h3

theorem solveStep_inv (budget : Nat) (w : Int) (st1 : SolveState) (e : Entry)
    (heap' : List Entry) (st5 : SolveState)
    (hrun : solveStep budget w st1 e heap' = some st5) (hinv : SolveInv st1) :
    SolveInv st5 := by
  obtain ⟨hbest, hbw, hev⟩ := hinv
  simp only [solveStep] at hrun
  rcases hpush : pushAll w (updateWinning budget (updateBest (popRecord st1 e heap') e) e).visited
      e.cost e.state e.path (prioritize_moves (available_moves e.state))
      ((updateWinning budget (updateBest (popRecord st1 e heap') e) e).heap,
       (updateWinning budget (updateBest (popRecord st1 e heap') e) e).counter)
    with _ | ⟨heap2, counter2⟩
  · rw [hpush] at hrun
    simp at hrun
  · rw [hpush] at hrun
    obtain rfl := Option.some_injective _ hrun
    refine ⟨?_, ?_, ?_⟩
    · refine invBest_congr _ _ ?_ ?_
        (invBest_step st1 e heap' hbest)
      · rw [show ({ updateWinning budget (updateBest (popRecord st1 e heap') e) e with
            heap := heap2, counter := counter2,
            iterations := (updateWinning budget (updateBest (popRecord st1 e heap') e) e).iterations + 1 } : SolveState).popped
          = (updateWinning budget (updateBest (popRecord st1 e heap') e) e).popped from rfl]
        rw [updateWinning_popped]
      · rw [show ({ updateWinning budget (updateBest (popRecord st1 e heap') e) e with
            heap := heap2, counter := counter2,
            iterations := (updateWinning budget (updateBest (popRecord st1 e heap') e) e).iterations + 1 } : SolveState).best
          = (updateWinning budget (updateBest (popRecord st1 e heap') e) e).best from rfl]
        rw [updateWinning_best]
    · refine invBW_congr _ _ rfl rfl ?_
      exact invBW_step budget st1 e heap' hbw
    · exact goodEvents_solveStep budget st1 e heap' hev

theorem periodicCb_inv (budget : Nat) (st : SolveState) (h : SolveInv st) :
    SolveInv (periodicCb budget st) := by
  unfold periodicCb
  by_cases hper : st.iterations % 100 = 0
  · rw [if_pos hper]
    exact ⟨h.1, h.2.1, goodEvents_cb_periodic _ h.2.2 _ _ hper _ _ _⟩
  · rw [if_neg hper]
    exact h

theorem solveLoop_inv (budget : Nat) (w : Int) (cancel : Nat → Bool) :
    ∀ (fuel : Nat) (st : SolveState) (pass : Nat) (st' : SolveState),
      solveLoop budget w cancel fuel st pass = some st' → SolveInv st →
        SolveInv st' := by
  intro fuel
  induction fuel with
  | zero =>
    intro st pass st' hrun _
    simp [solveLoop] at hrun
  | succ f ih =>
    intro st pass st' hrun hinv
    rw [solveLoop] at hrun
    by_cases hexit : st.heap = [] ∨ budget ≤ st.iterations
    · rw [if_pos hexit] at hrun
      obtain rfl := Option.some_injective _ hrun
      exact hinv
    · rw [if_neg hexit] at hrun
      by_cases hcan : cancel pass = true
      · rw [if_pos hcan] at hrun
        obtain rfl := Option.some_injective _ hrun
        exact ⟨hinv.1, hinv.2.1, goodEvents_cb_stopped _ hinv.2.2 _ _ _ _⟩
      · rw [if_neg hcan] at hrun
        have hinv1 := periodicCb_inv budget st hinv
        rcases hpop : popMin (periodicCb budget st).heap with _ | ⟨e, heap'⟩
        · rw [hpop] at hrun
          obtain rfl := Option.some_injective _ hrun
          exact hinv1
        · rw [hpop] at hrun
          dsimp only at hrun
          by_cases hvis : state_key e.state ∈ (periodicCb budget st).visited
          · rw [if_pos hvis] at hrun
            exact ih _ _ _ hrun ⟨hinv1.1, hinv1.2.1, hinv1.2.2⟩
          · rw [if_neg hvis] at hrun
            rcases hstep : solveStep budget w (periodicCb budget st) e heap' with _ | st5
            · rw [hstep] at hrun
              simp at hrun
            · rw [hstep] at hrun
              exact ih _ _ _ hrun
                (solveStep_inv budget w (periodicCb budget st) e heap' st5 hstep hinv1)

theorem solveFuel_spec (initial_state : GameState) (budget : Nat) (w : Int)
    (cancel : Nat → Bool) (fuel : Nat) (r : SolveResult)
    (hrun : solveFuel initial_state budget w cancel fuel = some r) :
    SolveInv r.final
      ∧ ((∃ b, r.final.bw = some b ∧ r.returned = b)
        ∨ (r.final.bw = none ∧ r.returned = r.final.best)) := by
  simp only [solveFuel] at hrun
  rcases hloop : solveLoop budget w cancel fuel
      ⟨[⟨(0 : Int) - w * heuristic_score initial_state, 0, 0, initial_state, []⟩],
       0, [], ⟨0, []⟩, none, 0, .starting, false, [], [], 0⟩ 0 with _ | st
  · rw [hloop] at hrun
    simp at hrun
  · rw [hloop] at hrun
    dsimp only at hrun
    have hinvst : SolveInv st := by
      refine solveLoop_inv budget w cancel fuel _ 0 st hloop ?_
      refine ⟨⟨?_, Or.inl rfl⟩, ?_, rfl, rfl⟩
      · intro q hq
        exact absurd hq (List.not_mem_nil q)
      · intro q hq
        exact absurd hq (List.not_mem_nil q)
    rcases hbw : st.bw with _ | b
    · rw [hbw] at hrun
      obtain rfl := (Option.some_injective _ hrun).symm
      refine ⟨⟨hinvst.1, ?_, ?_⟩, Or.inr ⟨rfl, rfl⟩⟩
      · have h2 := hinvst.2.1
        unfold InvBW at h2 ⊢
        rw [hbw] at h2
        exact h2
      · exact goodEvents_cb_completed _ hinvst.2.2 _ _ _ _ _
    · rw [hbw] at hrun
      obtain rfl := (Option.some_injective _ hrun).symm
      refine ⟨⟨hinvst.1, ?_, ?_⟩, Or.inl ⟨b, rfl, rfl⟩⟩
      · have h2 := hinvst.2.1
        unfold InvBW at h2 ⊢
        rw [hbw] at h2
        exact h2
      · exact goodEvents_cb_best _
          (goodEvents_cb_completed _ hinvst.2.2 _ _ _ _ _) _ _ _ _ _

/-- C4: whenever the fuel-indexed `solve` returns (the Python loop always
terminates; fuel only bounds the modelled recursion), the returned solution
is the best winning solution if any winning state was popped during the
search — a `SolutionState` with `foundation_count` 52 and a shortest winning
path among the popped winning states — and otherwise the best partial
solution: the path of a popped state of maximal `foundation_count`, possibly
the zero-move initial `SolutionState`. -/
theorem solve_returns_best (initial_state : GameState) (budget : Nat) (w : Int)
    (cancel : Nat → Bool) (fuel : Nat) (r : SolveResult)
    (hrun : solveFuel initial_state budget w cancel fuel = some r) :
    ReturnedBestSpec r := by
  obtain ⟨⟨hbest, hbw, _⟩, hret⟩ :=
    solveFuel_spec initial_state budget w cancel fuel r hrun
  constructor
  · intro hnowon
    rcases hret with ⟨b, hbsome, hretb⟩ | ⟨hbnone, hretbest⟩
    · unfold InvBW at hbw
      rw [hbsome] at hbw
      obtain ⟨_, ⟨q, hq, hqw, _⟩, _⟩ := hbw
      exact absurd hqw (by rw [hnowon q hq]; simp)
    · refine ⟨hbnone, hretbest, ?_, ?_⟩
      · rw [hretbest]
        exact hbest.1
      · rw [hretbest]
        exact hbest.2
  · intro q0 hq0 hq0w
    rcases hret with ⟨b, hbsome, hretb⟩ | ⟨hbnone, hretbest⟩
    · unfold InvBW at hbw
      rw [hbsome] at hbw
      obtain ⟨h52, hex, hmin⟩ := hbw
      subst hretb
      exact ⟨hbsome, h52, hex, hmin⟩
    · unfold InvBW at hbw
      rw [hbnone] at hbw
      exact absurd hq0w (by rw [hbw q0 hq0]; simp)

/-- Witness for C4 at the concrete budget-5 run on the ace deal. -/
theorem solve_returns_best_witness : ReturnedBestSpec c4res :=
  solve_returns_best d5state 5 1 (fun _ => false) 30 c4res rfl

/-- C5 amended: in any run of `solve`, every invocation of the progress
callback happens either at the top of a pass whose expansion count is
≡ 0 (mod 100), or with the message set by a best-winning replacement, a user
stop, or termination; and every best-winning replacement is immediately
followed by a callback. A best-partial replacement only updates the status
message — it does not trigger a callback (see the counterexample). -/
theorem solve_callback_discipline (initial_state : GameState) (budget : Nat)
    (w : Int) (cancel : Nat → Bool) (fuel : Nat) (r : SolveResult)
    (hrun : solveFuel initial_state budget w cancel fuel = some r) :
    goodEvents r.final.events :=
  (solveFuel_spec initial_state budget w cancel fuel r hrun).1.2.2

/-- Witness for the amended C5 at the concrete budget-3 run. -/
theorem solve_callback_discipline_witness : goodEvents c5res.final.events :=
  solve_callback_discipline d5state 3 1 (fun _ => false) 20 c5res rfl

/-- C5 counterexample: in the budget-3 run on the ace deal, `best_solution`
is replaced during the expansion with iteration count 1 (the `bpRep 1`
marker), yet no callback in the whole trace passes iteration count 1 — the
callback is *not* invoked on best-partial replacements. -/
theorem solve_no_callback_on_partial_replacement :
    Ev.bpRep 1 ∈ c5events ∧ noCbAtIter 1 c5events = true := by
  constructor
  · decide
  · rfl
